import Mathlib

/-!
Verification of the record-rendering and navigation engine of
`file_explorer.py` (terminal JSON/JSONL/TXT record viewer).

Python strings are modelled as `List Char` (`Str`), Python `int` as `Int`
(`Nat` where the source value is manifestly non-negative), Python lists as
`List`, Python dicts as association lists with unique keys, and fallible
operations as `Option`/`Except`.  Every definition is translated from
`src/file_explorer.py`; the few places where a Python standard-library
routine (e.g. `json.loads`) is modelled rather than transcribed are marked
in the corresponding doc comment.
-/

/-- Model of a Python `str`: a finite sequence of unicode characters. -/
abbrev Str := List Char

/-- Display width of one character, from `split_str` (file_explorer.py:269):
`1 if ord(char) < 128 else 2`. -/
def charWidth (c : Char) : Nat :=
  if c.toNat < 128 then 1 else 2

/-- Total display width of a string: sum of `charWidth` over its characters. -/
def strWidth (s : Str) : Nat :=
  s.foldl (fun a c => a + charWidth c) 0

/-- Loop of `split_str` (file_explorer.py:263-278).  State: the remaining
characters, the running width `length`, the current segment `current_str`
and the list of finished segments `result`; at the end the current segment
is appended (`result.append(current_str)`). -/
def split_str_aux (n : Nat) : Str → Nat → Str → List Str → List Str
  | [], _, current_str, result => result ++ [current_str]
  | c :: rest, length, current_str, result =>
      let char_length := charWidth c
      if length + char_length ≤ n then
        split_str_aux n rest (length + char_length) (current_str ++ [c]) result
      else
        split_str_aux n rest char_length [c] (result ++ [current_str])

/-- `split_str(s, n)` (file_explorer.py:263-278, identical to the method at
file_explorer.py:110-127): greedy split of `s` into segments of display
width at most `n` (each character contributing `charWidth`). -/
def split_str (s : Str) (n : Nat) : List Str :=
  split_str_aux n s 0 [] []

theorem strWidth_foldl (u : Str) : ∀ m : Nat,
    List.foldl (fun a c => a + charWidth c) m u = m + strWidth u := by
  induction u with
  | nil => intro m; simp [strWidth]
  | cons d v ihv =>
      intro m
      show List.foldl _ (m + charWidth d) v = _
      rw [ihv]
      show _ = m + List.foldl (fun a c => a + charWidth c) (0 + charWidth d) v
      rw [ihv]
      omega

theorem strWidth_cons (c : Char) (u : Str) :
    strWidth (c :: u) = charWidth c + strWidth u := by
  show List.foldl (fun a c => a + charWidth c) (0 + charWidth c) u = _
  rw [strWidth_foldl]
  omega

theorem strWidth_append (a b : Str) : strWidth (a ++ b) = strWidth a + strWidth b := by
  induction a with
  | nil => simp [strWidth]
  | cons c t ih =>
      show strWidth (c :: (t ++ b)) = strWidth (c :: t) + strWidth b
      rw [strWidth_cons, strWidth_cons, ih]
      omega

/-- Concatenation invariant of the `split_str` loop. -/
theorem split_str_aux_flatten (n : Nat) (cs : Str) :
    ∀ (length : Nat) (cur : Str) (acc : List Str),
      (split_str_aux n cs length cur acc).flatten = acc.flatten ++ cur ++ cs := by
  induction cs with
  | nil => intro length cur acc; simp [split_str_aux]
  | cons c rest ih =>
      intro length cur acc
      show (if length + charWidth c ≤ n then _ else _ : List Str).flatten = _
      by_cases h : length + charWidth c ≤ n
      · rw [if_pos h, ih]
        simp
      · rw [if_neg h, ih]
        simp

/-- Segment-width invariant of the `split_str` loop, valid for `2 ≤ n`
(a freshly started segment holds one character of width at most 2). -/
theorem split_str_aux_width (n : Nat) (hn : 2 ≤ n) (cs : Str) :
    ∀ (cur : Str) (acc : List Str),
      strWidth cur ≤ n → (∀ t ∈ acc, strWidth t ≤ n) →
      ∀ t ∈ split_str_aux n cs (strWidth cur) cur acc, strWidth t ≤ n := by
  induction cs with
  | nil =>
      intro cur acc hcur hacc t ht
      simp only [split_str_aux] at ht
      rcases List.mem_append.mp ht with h | h
      · exact hacc t h
      · simpa [List.mem_singleton.mp h] using hcur
  | cons c rest ih =>
      intro cur acc hcur hacc t ht
      simp only [split_str_aux] at ht
      by_cases h : strWidth cur + charWidth c ≤ n
      · rw [if_pos h] at ht
        have hw : strWidth (cur ++ [c]) = strWidth cur + charWidth c := by
          rw [strWidth_append]; simp [strWidth, charWidth]
        rw [← hw] at ht h
        exact ih (cur ++ [c]) acc h hacc t ht
      · rw [if_neg h] at ht
        have hw1 : strWidth [c] = charWidth c := by simp [strWidth]
        have hcw : charWidth c ≤ 2 := by unfold charWidth; split <;> omega
        have hc : strWidth [c] ≤ n := by omega
        rw [← hw1] at ht
        exact ih [c] (acc ++ [cur]) hc
          (by
            intro u hu
            rcases List.mem_append.mp hu with h' | h'
            · exact hacc u h'
            · simpa [List.mem_singleton.mp h'] using hcur) t ht

/-- C6: for every string `s` and every width `n`, the segments returned by
`split_str` concatenate back to `s` exactly, the result is never empty, and
a zero-length input yields exactly one empty segment.  (Proved for all `n`,
which covers the claim's `w ≥ 1`.) -/
theorem C6_wrap_concat (s : Str) (n : Nat) :
    (split_str s n).flatten = s ∧ split_str s n ≠ [] ∧ split_str ([] : Str) n = [[]] := by
  refine ⟨?_, ?_, rfl⟩
  · simpa using split_str_aux_flatten n s 0 [] []
  · unfold split_str
    have h : ∀ (cs : Str) (length : Nat) (cur : Str) (acc : List Str),
        split_str_aux n cs length cur acc ≠ [] := by
      intro cs
      induction cs with
      | nil => intro length cur acc; simp [split_str_aux]
      | cons c rest ih =>
          intro length cur acc
          show (if length + charWidth c ≤ n then _ else _ : List Str) ≠ []
          by_cases hb : length + charWidth c ≤ n
          · rw [if_pos hb]; exact ih _ _ _
          · rw [if_neg hb]; exact ih _ _ _
    exact h s 0 [] []

/-- C5 counterexample: at width `w = 1` the wrapper emits the double-width
character `中` as a segment of display width `2 > 1`, refuting the claim for
`w = 1`. -/
theorem C5_counterexample :
    split_str "中".data 1 = [[], ['中']] ∧ strWidth ['中'] = 2 ∧ ¬ (strWidth ['中'] ≤ 1) := by
  refine ⟨by decide, by decide, by decide⟩

/-- C5 amended: for every string `s` and every width `w ≥ 2`, every segment
returned by `split_str s w` has display width at most `w` (the original
claim's `w ≥ 1` fails exactly when a width-2 character meets `w = 1`). -/
theorem C5_amended_segment_width (s : Str) (n : Nat) (hn : 2 ≤ n) :
    ∀ t ∈ split_str s n, strWidth t ≤ n := by
  have h0 : strWidth ([] : Str) = 0 := rfl
  have := split_str_aux_width n hn s [] [] (by rw [h0]; omega) (by intro t ht; cases ht)
  rw [h0] at this
  exact this

/-- Witness for C5 amended at `s = "abc"`, `n = 2`. -/
theorem C5_amended_segment_width_witness :
    2 ≤ 2 ∧ ∀ t ∈ split_str "abc".data 2, strWidth t ≤ 2 :=
  ⟨by decide, C5_amended_segment_width "abc".data 2 (by decide)⟩

/-- Python substring test for the hay's start: `needle` is a leading block of
the second argument (helper for modelling the `in` operator). -/
def startsWithStr : Str → Str → Bool
  | [], _ => true
  | _ :: _, [] => false
  | a :: as, b :: bs => a = b && startsWithStr as bs

/-- Model of the Python expression `needle in hay` on strings: contiguous
substring containment (the empty needle is contained in every string). -/
def pyContains (needle : Str) : Str → Bool
  | [] => decide (needle = [])
  | c :: rest => startsWithStr needle (c :: rest) || pyContains needle rest

/-- Inner loop of `search_in_list` (file_explorer.py:320-322):
`enumerate(string_list, start=1)` with the first hit's 1-based index. -/
def search_in_list_aux (target_string : Str) : Int → List Str → Int
  | _, [] => -1
  | index, s :: rest =>
      if pyContains target_string s then index
      else search_in_list_aux target_string (index + 1) rest

/-- `search_in_list` (file_explorer.py:316-324): `0` for an empty target,
else the 1-based index of the first list element containing the target as a
substring, else `-1`. -/
def search_in_list (string_list : List Str) (target_string : Str) : Int :=
  if target_string = [] then 0
  else search_in_list_aux target_string 1 string_list

/-- Model of the Python slice `l[i:]` for an `int` index `i` (negative
indices count from the end, clamped at 0). -/
def pySliceFrom {α : Type} (l : List α) (i : Int) : List α :=
  if 0 ≤ i then l.drop i.toNat
  else l.drop (max 0 ((l.length : Int) + i)).toNat

/-- Loop of `search_next` (file_explorer.py:386-395), fuel-indexed: each
iteration of `while selected_data < len(json_lines)` increments
`selected_data`, so the iteration count is `len(json_lines) - selected_data`.
Note that the scanned list `lines` never changes inside the loop: the source
never recomputes the rendered lines of the records it steps through. -/
def search_next_aux (lines : List Str) (search_str : Str) :
    Nat → Int → Int → Int × Int
  | 0, _, _ => (0, 0)
  | remaining + 1, selected_data, start_line =>
      let line_diff := search_in_list (pySliceFrom lines (start_line + 1)) search_str
      if line_diff ≠ -1 then (selected_data, start_line + line_diff)
      else search_next_aux lines search_str remaining (selected_data + 1) 0

/-- `search_next` (file_explorer.py:386-395). -/
def search_next (json_lines : List Str) (selected_data : Int) (lines : List Str)
    (start_line : Int) (search_str : Str) : Int × Int :=
  search_next_aux lines search_str ((json_lines.length : Int) - selected_data).toNat
    selected_data start_line

theorem search_in_list_aux_all_neg (q : Str) (l : List Str)
    (h : ∀ s ∈ l, pyContains q s = false) :
    ∀ i : Int, search_in_list_aux q i l = -1 := by
  induction l with
  | nil => intro i; rfl
  | cons s rest ih =>
      intro i
      show (if pyContains q s then i else search_in_list_aux q (i + 1) rest) = -1
      rw [h s (List.mem_cons_self s rest)]
      simp only [if_neg Bool.false_ne_true]
      exact ih (fun t ht => h t (List.mem_cons_of_mem s ht)) (i + 1)

/-- If no line of the (fixed) scanned list contains the non-empty query, the
search loop exhausts every remaining record and returns the `(0, 0)`
sentinel, no matter what the other records contain. -/
theorem search_next_all_neg (json_lines : List Str) (selected_data : Int)
    (lines : List Str) (start_line : Int) (q : Str) (hq : q ≠ [])
    (h : ∀ s ∈ lines, pyContains q s = false) :
    search_next json_lines selected_data lines start_line q = (0, 0) := by
  unfold search_next
  generalize ((json_lines.length : Int) - selected_data).toNat = fuel
  induction fuel generalizing selected_data start_line with
  | zero => rfl
  | succ m ih =>
      show (if search_in_list (pySliceFrom lines (start_line + 1)) q ≠ -1 then _ else _) = _
      have hs : search_in_list (pySliceFrom lines (start_line + 1)) q = -1 := by
        unfold search_in_list
        rw [if_neg hq]
        refine search_in_list_aux_all_neg q _ ?_ 1
        intro s hsm
        refine h s ?_
        unfold pySliceFrom at hsm
        by_cases h0 : (0 : Int) ≤ start_line + 1
        · rw [if_pos h0] at hsm; exact List.mem_of_mem_drop hsm
        · rw [if_neg h0] at hsm; exact List.mem_of_mem_drop hsm
      rw [hs]
      simp only [ne_eq, not_true_eq_false, if_false]
      exact ih (selected_data + 1) 0

/-- Model of Python `int(s)` restricted to the jump buffer's alphabet: the
buffer receives only the characters `'0'..'9'` (file_explorer.py:531), so
`int` succeeds exactly on a non-empty all-digit buffer and raises
`ValueError` (here `none`) on the empty one. -/
def pyIntOfBuffer (s : Str) : Option Int :=
  if s ≠ [] ∧ s.all (fun c => c.isDigit) then
    some (s.foldl (fun a c => a * 10 + ((c.toNat : Int) - 48)) 0)
  else none

/-- ENTER handler of JUMP mode (file_explorer.py:535-543): parse the buffer
as a 1-based line number; an in-range target moves the selection and resets
the scroll and the buffer; an out-of-range target leaves the selection and
scroll unchanged but still clears the buffer; a parse failure (empty
buffer) changes nothing.  Returns `(selected_data, start_line,
jump_line_str)`. -/
def jump_enter (jump_line_str : Str) (selected_data start_line : Int)
    (numRecords : Nat) : Int × Int × Str :=
  match pyIntOfBuffer jump_line_str with
  | none => (selected_data, start_line, jump_line_str)
  | some v =>
      let target_line := v - 1
      if 0 ≤ target_line ∧ target_line < (numRecords : Int) then
        (target_line, 0, [])
      else
        (selected_data, start_line, [])

/-- Parsed JSON value: model of the Python object returned by `json.loads`
(`dict` as an insertion-ordered association list, `list`, `str`, `int`,
`float`, `bool`, `None`).  A `float` carries its source lexeme (Python
re-serializes floats via `repr`; no claim exercises floats). -/
inductive JValue where
  | null
  | bool (b : Bool)
  | int (n : Int)
  | float (lexeme : Str)
  | str (s : Str)
  | arr (items : List JValue)
  | obj (members : List (Str × JValue))

/-- Python `type(v).__name__` for a parsed JSON value. -/
def pyTypeName : JValue → Str
  | .null => "NoneType".data
  | .bool _ => "bool".data
  | .int _ => "int".data
  | .float _ => "float".data
  | .str _ => "str".data
  | .arr _ => "list".data
  | .obj _ => "dict".data

/-- Skeleton-side value: a parsed JSON value in which some positions now
hold a Python `type` object (written by `replace_non_dict_with_none`),
rendered unquoted by `TypeDisplayJSONEncoder`. -/
inductive SJValue where
  | null
  | bool (b : Bool)
  | int (n : Int)
  | float (lexeme : Str)
  | str (s : Str)
  | typeTag (name : Str)
  | arr (items : List SJValue)
  | obj (members : List (Str × SJValue))

mutual

/-- Injection of a plain JSON value into the skeleton-side type. -/
def toSJ : JValue → SJValue
  | .null => .null
  | .bool b => .bool b
  | .int n => .int n
  | .float lx => .float lx
  | .str s => .str s
  | .arr items => .arr (toSJList items)
  | .obj members => .obj (toSJMembers members)

def toSJList : List JValue → List SJValue
  | [] => []
  | v :: rest => toSJ v :: toSJList rest

def toSJMembers : List (Str × JValue) → List (Str × SJValue)
  | [] => []
  | (k, v) :: rest => (k, toSJ v) :: toSJMembers rest

end

mutual

/-- `replace_non_dict_with_none` (file_explorer.py:74-90).  In a dict, every
non-container value is overwritten with its `type` object and container
values are walked recursively.  In a list, container items are walked
recursively but the branch `item = type(item)` only rebinds the loop
variable, so non-container list items are left unchanged.  A non-container
argument is returned as is. -/
def replace_non_dict_with_none : JValue → SJValue
  | .obj members => .obj (replaceMembers members)
  | .arr items => .arr (replaceItems items)
  | v => toSJ v

def replaceMembers : List (Str × JValue) → List (Str × SJValue)
  | [] => []
  | (k, v) :: rest =>
      (k, match v with
          | .obj m => replace_non_dict_with_none (.obj m)
          | .arr i => replace_non_dict_with_none (.arr i)
          | w => .typeTag (pyTypeName w)) :: replaceMembers rest

def replaceItems : List JValue → List SJValue
  | [] => []
  | v :: rest =>
      (match v with
       | .obj m => replace_non_dict_with_none (.obj m)
       | .arr i => replace_non_dict_with_none (.arr i)
       | w => toSJ w) :: replaceItems rest

end

mutual

/-- Modelled from the spec: the skeleton walk as §4.3/C2 describe it, with
EVERY leaf — dict values and array elements alike — replaced by its runtime
type token.  Used only to compare the source's behaviour against the
claim. -/
def spec_skeleton : JValue → SJValue
  | .obj members => .obj (spec_skeletonMembers members)
  | .arr items => .arr (spec_skeletonItems items)
  | v => .typeTag (pyTypeName v)

def spec_skeletonMembers : List (Str × JValue) → List (Str × SJValue)
  | [] => []
  | (k, v) :: rest => (k, spec_skeleton v) :: spec_skeletonMembers rest

def spec_skeletonItems : List JValue → List SJValue
  | [] => []
  | v :: rest => spec_skeleton v :: spec_skeletonItems rest

end

/-- JSON insignificant whitespace (RFC 8259 / CPython `json`). -/
def jsonWs (c : Char) : Bool :=
  c = ' ' || c = '\t' || c = '\n' || c = '\r'

def skipWs : Str → Str
  | [] => []
  | c :: r => if jsonWs c then skipWs r else c :: r

def hexVal (c : Char) : Option Nat :=
  if '0' ≤ c ∧ c ≤ '9' then some (c.toNat - 48)
  else if 'a' ≤ c ∧ c ≤ 'f' then some (c.toNat - 87)
  else if 'A' ≤ c ∧ c ≤ 'F' then some (c.toNat - 55)
  else none

/-- Model of CPython `json` string scanning, after the opening quote:
returns the decoded content and the input after the closing quote.  Raw
control characters are rejected (strict mode); `\uXXXX` escapes decode a
single BMP code point (surrogate-pair recombination is not modelled; no
claim exercises it). -/
def parseJString : Nat → Str → Option (Str × Str)
  | 0, _ => none
  | fuel + 1, cs =>
      match cs with
      | [] => none
      | '"' :: rest => some ([], rest)
      | '\\' :: e :: rest =>
          let dec : Option (Str × Str) :=
            match e with
            | '"' => some (['"'], rest)
            | '\\' => some (['\\'], rest)
            | '/' => some (['/'], rest)
            | 'b' => some ([Char.ofNat 8], rest)
            | 'f' => some ([Char.ofNat 12], rest)
            | 'n' => some (['\n'], rest)
            | 'r' => some (['\r'], rest)
            | 't' => some (['\t'], rest)
            | 'u' =>
                match rest with
                | h1 :: h2 :: h3 :: h4 :: rest' =>
                    match hexVal h1, hexVal h2, hexVal h3, hexVal h4 with
                    | some a, some b, some c, some d =>
                        some ([Char.ofNat (a * 4096 + b * 256 + c * 16 + d)], rest')
                    | _, _, _, _ => none
                | _ => none
            | _ => none
          match dec with
          | some (pre, rest') =>
              match parseJString fuel rest' with
              | some (tail, rem) => some (pre ++ tail, rem)
              | none => none
          | none => none
      | c :: rest =>
          if c.toNat < 32 then none
          else
            match parseJString fuel rest with
            | some (tail, rem) => some (c :: tail, rem)
            | none => none

def spanDigits (cs : Str) : Str × Str :=
  (cs.takeWhile Char.isDigit, cs.dropWhile Char.isDigit)

def digitsToNat (ds : Str) : Nat :=
  ds.foldl (fun a c => a * 10 + (c.toNat - 48)) 0

/-- Model of CPython `json` number scanning: `-? (0 | [1-9][0-9]*) frac?
exp?`; a number without fraction or exponent parses to a Python `int`,
otherwise to a `float` carrying its lexeme.  (`NaN`/`Infinity`, accepted by
CPython by default, are not modelled; no claim exercises them.) -/
def parseNumber (cs : Str) : Option (JValue × Str) :=
  let (sign, cs1) : Str × Str :=
    match cs with
    | '-' :: r => (['-'], r)
    | _ => ([], cs)
  let (intDigits, cs2) := spanDigits cs1
  if intDigits = [] then none
  else if 2 ≤ intDigits.length ∧ intDigits.take 1 = ['0'] then none
  else
    let (fracPart, cs3) : Str × Str :=
      match cs2 with
      | '.' :: r =>
          let (ds, r') := spanDigits r
          if ds = [] then ([], cs2) else ('.' :: ds, r')
      | _ => ([], cs2)
    let (expPart, cs4) : Str × Str :=
      match cs3 with
      | 'e' :: r =>
          (match r with
           | '+' :: r' => (let (ds, r'') := spanDigits r';
                           if ds = [] then ([], cs3) else ('e' :: '+' :: ds, r''))
           | '-' :: r' => (let (ds, r'') := spanDigits r';
                           if ds = [] then ([], cs3) else ('e' :: '-' :: ds, r''))
           | _ => (let (ds, r'') := spanDigits r;
                   if ds = [] then ([], cs3) else ('e' :: ds, r'')))
      | 'E' :: r =>
          (match r with
           | '+' :: r' => (let (ds, r'') := spanDigits r';
                           if ds = [] then ([], cs3) else ('E' :: '+' :: ds, r''))
           | '-' :: r' => (let (ds, r'') := spanDigits r';
                           if ds = [] then ([], cs3) else ('E' :: '-' :: ds, r''))
           | _ => (let (ds, r'') := spanDigits r;
                   if ds = [] then ([], cs3) else ('E' :: ds, r'')))
      | _ => ([], cs3)
    if fracPart = [] ∧ expPart = [] then
      let v : Int := (digitsToNat intDigits : Int)
      some (.int (if sign = ['-'] then -v else v), cs2)
    else
      some (.float (sign ++ intDigits ++ fracPart ++ expPart), cs4)

mutual

/-- Model of CPython `json.loads` value scanning (fuel-indexed recursive
descent over the JSON grammar). -/
def parseValue : Nat → Str → Option (JValue × Str)
  | 0, _ => none
  | fuel + 1, cs0 =>
      let cs := skipWs cs0
      if startsWithStr "null".data cs then some (.null, cs.drop 4)
      else if startsWithStr "true".data cs then some (.bool true, cs.drop 4)
      else if startsWithStr "false".data cs then some (.bool false, cs.drop 5)
      else
        match cs with
        | '"' :: rest =>
            match parseJString fuel rest with
            | some (s, rem) => some (.str s, rem)
            | none => none
        | '[' :: rest =>
            let rest' := skipWs rest
            (match rest' with
             | ']' :: rem => some (.arr [], rem)
             | _ =>
                 match parseItemsLoop fuel rest' with
                 | some (items, rem) => some (.arr items, rem)
                 | none => none)
        | c :: _ =>
            if c.toNat = 123 then
              let rest' := skipWs (cs.drop 1)
              (match rest' with
               | d :: rem =>
                   if d.toNat = 125 then some (.obj [], rem)
                   else
                     match parseMembersLoop fuel rest' with
                     | some (members, rem') => some (.obj members, rem')
                     | none => none
               | [] => none)
            else parseNumber cs
        | [] => none

def parseItemsLoop : Nat → Str → Option (List JValue × Str)
  | 0, _ => none
  | fuel + 1, cs =>
      match parseValue fuel cs with
      | some (v, rem) =>
          (match skipWs rem with
           | ',' :: rem' =>
               (match parseItemsLoop fuel rem' with
                | some (items, rem'') => some (v :: items, rem'')
                | none => none)
           | ']' :: rem' => some ([v], rem')
           | _ => none)
      | none => none

def parseMembersLoop : Nat → Str → Option (List (Str × JValue) × Str)
  | 0, _ => none
  | fuel + 1, cs =>
      match skipWs cs with
      | '"' :: rest =>
          (match parseJString fuel rest with
           | some (k, rem) =>
               (match skipWs rem with
                | ':' :: rem' =>
                    (match parseValue fuel rem' with
                     | some (v, rem'') =>
                         (match skipWs rem'' with
                          | ',' :: rem3 =>
                              (match parseMembersLoop fuel rem3 with
                               | some (members, rem4) => some ((k, v) :: members, rem4)
                               | none => none)
                          | d :: rem3 =>
                              if d.toNat = 125 then some ([(k, v)], rem3) else none
                          | [] => none)
                     | none => none)
                | _ => none)
           | none => none)
      | _ => none

end

/-- Model of `json.loads` on a whole document: parse one value, then require
only whitespace to remain.  The fuel `2 * length + 8` dominates the
recursion depth of any input that parses. -/
def json_loads (s : Str) : Option JValue :=
  match parseValue (2 * s.length + 8) s with
  | some (v, rest) => if skipWs rest = [] then some v else none
  | none => none

def lbrace : Char := Char.ofNat 123

def rbrace : Char := Char.ofNat 125

def hexDigitChar (n : Nat) : Char :=
  if n < 10 then Char.ofNat (48 + n) else Char.ofNat (97 + n - 10)

def hex4 (n : Nat) : Str :=
  [hexDigitChar (n / 4096 % 16), hexDigitChar (n / 256 % 16),
   hexDigitChar (n / 16 % 16), hexDigitChar (n % 16)]

/-- One character of CPython `json` string output.  With `ensure_ascii=False`
(used at file_explorer.py:71,93) non-ASCII characters stay literal; with the
default `ensure_ascii=True` (used at file_explorer.py:409-411) they become
`\uXXXX` escapes (a surrogate pair above the BMP). -/
def jsonEscapeChar (ensureAscii : Bool) (c : Char) : Str :=
  if c = '"' then ['\\', '"']
  else if c = '\\' then ['\\', '\\']
  else if c = '\n' then ['\\', 'n']
  else if c = '\r' then ['\\', 'r']
  else if c = '\t' then ['\\', 't']
  else if c.toNat = 8 then ['\\', 'b']
  else if c.toNat = 12 then ['\\', 'f']
  else if c.toNat < 32 then '\\' :: 'u' :: hex4 c.toNat
  else if ensureAscii ∧ 128 ≤ c.toNat then
    if c.toNat < 65536 then '\\' :: 'u' :: hex4 c.toNat
    else
      '\\' :: 'u' :: hex4 (55296 + (c.toNat - 65536) / 1024) ++
        ('\\' :: 'u' :: hex4 (56320 + (c.toNat - 65536) % 1024))
  else [c]

def jsonQuote (ensureAscii : Bool) (s : Str) : Str :=
  '"' :: s.flatMap (jsonEscapeChar ensureAscii) ++ ['"']

def digitChar (n : Nat) : Char := Char.ofNat (48 + n)

def natToStrAux : Nat → Nat → Str
  | 0, _ => []
  | fuel + 1, n =>
      if n < 10 then [digitChar n]
      else natToStrAux fuel (n / 10) ++ [digitChar (n % 10)]

def natToStr (n : Nat) : Str := natToStrAux (n + 1) n

def intToStr (n : Int) : Str :=
  if n < 0 then '-' :: natToStr n.natAbs else natToStr n.toNat

def indentPad (depth : Nat) : Str := List.replicate (2 * depth) ' '

mutual

/-- CPython `json.dumps` output for a (skeleton-side) value: with
`ind = true` the `indent=2` layout (items separated by `",\n"` plus
padding, keys by `": "`), with `ind = false` the default compact layout
(separators `", "` and `": "`).  A `typeTag` renders as its bare unquoted
name: this is the composite of `TypeDisplayJSONEncoder.default`, which
serializes a `type` object as the dict `{"__class__": name}`
(file_explorer.py:14-20), and `TypeDisplayJSONEncoder.encode`, whose regex
rewrites exactly that serialized dict to the bare name
(file_explorer.py:22-29).  (The regex would also rewrite genuine data of
that same shape; no claim exercises such data.) -/
def sdumpVal (ind ea : Bool) (depth : Nat) : SJValue → Str
  | .null => "null".data
  | .bool b => if b then "true".data else "false".data
  | .int n => intToStr n
  | .float lx => lx
  | .str s => jsonQuote ea s
  | .typeTag name => name
  | .arr items =>
      match items with
      | [] => "[]".data
      | _ =>
          let elems := sdumpItems ind ea (depth + 1) items
          if ind then
            '[' :: '\n' ::
              (List.intercalate (",\n".data) (elems.map (fun e => indentPad (depth + 1) ++ e)) ++
               '\n' :: indentPad depth ++ [']'])
          else
            '[' :: (List.intercalate ", ".data elems ++ [']'])
  | .obj members =>
      match members with
      | [] => [lbrace, rbrace]
      | _ =>
          let elems := sdumpMembers ind ea (depth + 1) members
          if ind then
            lbrace :: '\n' ::
              (List.intercalate (",\n".data) (elems.map (fun e => indentPad (depth + 1) ++ e)) ++
               '\n' :: indentPad depth ++ [rbrace])
          else
            lbrace :: (List.intercalate ", ".data elems ++ [rbrace])

def sdumpItems (ind ea : Bool) (depth : Nat) : List SJValue → List Str
  | [] => []
  | v :: rest => sdumpVal ind ea depth v :: sdumpItems ind ea depth rest

def sdumpMembers (ind ea : Bool) (depth : Nat) : List (Str × SJValue) → List Str
  | [] => []
  | (k, v) :: rest =>
      (jsonQuote ea k ++ ':' :: ' ' :: sdumpVal ind ea depth v) ::
        sdumpMembers ind ea depth rest

end

/-- `json.dumps(v, ensure_ascii=False, indent=2)` (file_explorer.py:71). -/
def json_dumps_indent2 (v : JValue) : Str := sdumpVal true false 0 (toSJ v)

/-- `json.dumps(v, cls=TypeDisplayJSONEncoder, ensure_ascii=False, indent=2)`
(file_explorer.py:93). -/
def skeleton_dumps_indent2 (sv : SJValue) : Str := sdumpVal true false 0 sv

/-- `json.dumps(v)` with default options (file_explorer.py:409-411). -/
def json_dumps_compact (v : JValue) : Str := sdumpVal false true 0 (toSJ v)

/-- Model of `re.sub(r'(?<!\\)\\n', '\n', s)` (file_explorer.py:72,94): a
left-to-right scan replacing each two-character sequence backslash-`n` by a
newline unless the character before it in the original string is itself a
backslash. -/
def reSubNewlineAux : Option Char → Str → Str
  | _, [] => []
  | prev, '\\' :: 'n' :: rest =>
      if prev = some '\\' then '\\' :: reSubNewlineAux (some '\\') ('n' :: rest)
      else '\n' :: reSubNewlineAux (some 'n') rest
  | _, c :: rest => c :: reSubNewlineAux (some c) rest

def pyReSubNewline (s : Str) : Str := reSubNewlineAux none s

/-- Model of Python `s.split('\n')`. -/
def splitOnNewline : Str → List Str
  | [] => [[]]
  | '\n' :: rest => [] :: splitOnNewline rest
  | c :: rest =>
      match splitOnNewline rest with
      | h :: t => (c :: h) :: t
      | [] => [[c]]

/-- `JSONDataCache._compute_lines` (file_explorer.py:67-108).  On a JSON
parse failure both views are the fixed error message.  Otherwise the full
view is the pretty-printed serialization; the skeleton view goes through
`full_json_data.copy()`, which raises `AttributeError` for a top-level
non-container value — caught by the generic handler (file_explorer.py:98-100),
turning BOTH views into `"Error: '<type>' object has no attribute 'copy'"`.
Both strings then go through the newline substitution and are wrapped
line-by-line at `cols`. -/
def compute_lines (json_line : Str) (cols : Nat) : List Str × List Str :=
  let (full_json_str, skeleton_json_str) :=
    match json_loads json_line with
    | none => ("Error: Invalid JSON data.".data, "Error: Invalid JSON data.".data)
    | some v =>
        match v with
        | .obj m =>
            (pyReSubNewline (json_dumps_indent2 (.obj m)),
             pyReSubNewline (skeleton_dumps_indent2 (replace_non_dict_with_none (.obj m))))
        | .arr i =>
            (pyReSubNewline (json_dumps_indent2 (.arr i)),
             pyReSubNewline (skeleton_dumps_indent2 (replace_non_dict_with_none (.arr i))))
        | w =>
            let msg := "Error: '".data ++ pyTypeName w ++
              "' object has no attribute 'copy'".data
            (msg, msg)
  ((splitOnNewline full_json_str).flatMap (fun l => split_str l cols),
   (splitOnNewline skeleton_json_str).flatMap (fun l => split_str l cols))

/-- Modelled from the spec (§4.3 step 3 and §8): the skeleton rendering as
the claim describes it, with every leaf replaced by its type token,
serialized and wrapped like the source's skeleton view.  Used only to
exhibit the divergence of the source from the claim. -/
def spec_skeleton_lines (json_line : Str) (cols : Nat) : Option (List Str) :=
  (json_loads json_line).map fun v =>
    (splitOnNewline (skeleton_dumps_indent2 (spec_skeleton v))).flatMap
      (fun l => split_str l cols)

/-- C2, evaluated at the claim's own example record
`{"a": 1, "b": [2, "x"]}` (width 80): the source's skeleton view keeps the
array leaves `2` and `"x"` verbatim — because `item = type(item)` in
`replace_non_dict_with_none` only rebinds the loop variable — while the
claim (and the spec-modelled walk) demands `int` and `str` there.  The two
renderings differ, refuting the claim on the code. -/
theorem C2_skeleton_at_failing_input :
    (compute_lines "\x7b\"a\": 1, \"b\": [2, \"x\"]\x7d".data 80).2 =
      ["\x7b".data, "  \"a\": int,".data, "  \"b\": [".data, "    2,".data,
       "    \"x\"".data, "  ]".data, "\x7d".data] ∧
    spec_skeleton_lines "\x7b\"a\": 1, \"b\": [2, \"x\"]\x7d".data 80 =
      some ["\x7b".data, "  \"a\": int,".data, "  \"b\": [".data, "    int,".data,
            "    str".data, "  ]".data, "\x7d".data] ∧
    (compute_lines "\x7b\"a\": 1, \"b\": [2, \"x\"]\x7d".data 80).2 ≠
      ["\x7b".data, "  \"a\": int,".data, "  \"b\": [".data, "    int,".data,
       "    str".data, "  ]".data, "\x7d".data] := by
  refine ⟨by decide, by decide, by decide⟩

/-- C1, evaluated at the claim's own scenario: six records whose raw texts
are `{"a": 1}` (records 0–4, rendering without the query) and
`{"a": 1, "k": "needle"}` (record 5, whose rendered full view has the query
on line index 2).  Starting from `(0, 0)`, the claim expects `(5, 2)`; but
`search_next` (file_explorer.py:386-395) never recomputes `lines` for the
records it steps through — it keeps scanning record 0's lines — so it
exhausts the file and returns the `(0, 0)` sentinel. -/
theorem C1_search_next_at_failing_input :
    ((compute_lines "\x7b\"a\": 1\x7d".data 40).1.all
        (fun l => !(pyContains "needle".data l))) = true ∧
    ((compute_lines "\x7b\"a\": 1, \"k\": \"needle\"\x7d".data 40).1.getD 2 []) =
      "  \"k\": \"needle\"".data ∧
    pyContains "needle".data
      ((compute_lines "\x7b\"a\": 1, \"k\": \"needle\"\x7d".data 40).1.getD 2 []) = true ∧
    search_next
      ["\x7b\"a\": 1\x7d".data, "\x7b\"a\": 1\x7d".data, "\x7b\"a\": 1\x7d".data,
       "\x7b\"a\": 1\x7d".data, "\x7b\"a\": 1\x7d".data,
       "\x7b\"a\": 1, \"k\": \"needle\"\x7d".data]
      0 ((compute_lines "\x7b\"a\": 1\x7d".data 40).1) 0 "needle".data = (0, 0) ∧
    ((0, 0) : Int × Int) ≠ ((5, 2) : Int × Int) := by
  refine ⟨by decide, by decide, by decide, by decide, by decide⟩

/-- A Python dict keyed by record index, as an association list (the
`full_cache` / `skeleton_cache` fields of `JSONDataCache`). -/
abbrev RCache := List (Int × List Str)

/-- Python dict assignment `cache[k] = v`: replace in place, else append. -/
def alSet (k : Int) (v : List Str) : RCache → RCache
  | [] => [(k, v)]
  | (a, b) :: t => if a = k then (a, v) :: t else (a, b) :: alSet k v t

/-- Python `cache.pop(k, None)`: drop the entry with key `k`. -/
def alRemove (k : Int) (c : RCache) : RCache :=
  c.filter (fun p => p.1 != k)

def removeList (ks : List Int) (c : RCache) : RCache :=
  ks.foldl (fun c k => alRemove k c) c

/-- State of `JSONDataCache` (file_explorer.py:31-38). -/
structure JSONDataCache where
  max_size : Nat
  full_cache : RCache
  skeleton_cache : RCache
  access_order : List Int

/-- `JSONDataCache.__init__` (file_explorer.py:34-38). -/
def emptyCache (max_size : Nat) : JSONDataCache :=
  ⟨max_size, [], [], []⟩

/-- The `while len(self.access_order) > self.max_size` eviction loop of
`get_lines` (file_explorer.py:50-53): pop the front of the access order and
drop that key from both caches until the order fits. -/
def evictLoop (max : Nat) : List Int → RCache → RCache → List Int × RCache × RCache
  | [], fc, sc => ([], fc, sc)
  | old :: rest, fc, sc =>
      if max < (old :: rest).length then
        evictLoop max rest (alRemove old fc) (alRemove old sc)
      else (old :: rest, fc, sc)

/-- `JSONDataCache.get_lines` (file_explorer.py:40-65).  The cache key is
the record index alone (`cache_key = data_index`, file_explorer.py:42); the
requested column width is NOT part of the key.  The access order is
refreshed (`remove` + `append`), the LRU eviction loop runs, then a hit in
both dicts returns the cached pair, else both views are computed at `cols`
and stored. -/
def get_lines (st : JSONDataCache) (data_index : Int) (cols : Nat) (json_line : Str) :
    (List Str × List Str) × JSONDataCache :=
  let ao₁ := (if data_index ∈ st.access_order then st.access_order.erase data_index
              else st.access_order) ++ [data_index]
  match evictLoop st.max_size ao₁ st.full_cache st.skeleton_cache with
  | (ao₂, fc₂, sc₂) =>
      match List.lookup data_index fc₂, List.lookup data_index sc₂ with
      | some full_lines, some skeleton_lines =>
          ((full_lines, skeleton_lines),
           { st with access_order := ao₂, full_cache := fc₂, skeleton_cache := sc₂ })
      | _, _ =>
          (((compute_lines json_line cols).1, (compute_lines json_line cols).2),
           { st with access_order := ao₂,
                     full_cache := alSet data_index (compute_lines json_line cols).1 fc₂,
                     skeleton_cache := alSet data_index (compute_lines json_line cols).2 sc₂ })

/-- `JSONDataCache.clear` (file_explorer.py:129-133). -/
def clearCache (st : JSONDataCache) : JSONDataCache :=
  { st with full_cache := [], skeleton_cache := [], access_order := [] }

/-- A sequence of `get_lines` calls, keeping only the cache state. -/
def applyGets (ops : List (Int × Nat × Str)) (st : JSONDataCache) : JSONDataCache :=
  ops.foldl (fun s op => (get_lines s op.1 op.2.1 op.2.2).2) st

theorem lookup_alRemove_self (k : Int) (c : RCache) :
    List.lookup k (alRemove k c) = none := by
  induction c with
  | nil => rfl
  | cons p t ih =>
      obtain ⟨a, b⟩ := p
      show List.lookup k (List.filter (fun p => p.1 != k) ((a, b) :: t)) = none
      rw [List.filter_cons]
      by_cases h : a = k
      · simp only [show ((a, b).1 != k) = false by simp [h], if_false]
        exact ih
      · simp only [show ((a, b).1 != k) = true by simpa using h, if_true, List.lookup,
          show (k == a) = false by simpa using Ne.symm h]
        exact ih

theorem lookup_alRemove_ne (j k : Int) (c : RCache) (h : j ≠ k) :
    List.lookup j (alRemove k c) = List.lookup j c := by
  induction c with
  | nil => rfl
  | cons p t ih =>
      obtain ⟨a, b⟩ := p
      show List.lookup j (List.filter (fun p => p.1 != k) ((a, b) :: t)) = _
      rw [List.filter_cons]
      by_cases hp : a = k
      · have hj : (j == a) = false := by
          subst hp; simpa using h
        simp only [show ((a, b).1 != k) = false by simp [hp], if_false, List.lookup, hj]
        exact ih
      · simp only [show ((a, b).1 != k) = true by simpa using hp, if_true, List.lookup]
        by_cases hjp : j = a
        · simp [hjp]
        · simp only [show (j == a) = false by simpa using hjp]
          exact ih

theorem lookup_alSet_self (k : Int) (v : List Str) (c : RCache) :
    List.lookup k (alSet k v c) = some v := by
  induction c with
  | nil => simp [alSet, List.lookup]
  | cons p t ih =>
      obtain ⟨a, b⟩ := p
      show List.lookup k (if a = k then (a, v) :: t else (a, b) :: alSet k v t) = some v
      by_cases h : a = k
      · simp [h, List.lookup]
      · simp only [if_neg h, List.lookup, show (k == a) = false by simpa using Ne.symm h]
        exact ih

theorem lookup_alSet_ne (j k : Int) (v : List Str) (c : RCache) (h : j ≠ k) :
    List.lookup j (alSet k v c) = List.lookup j c := by
  induction c with
  | nil => simp [alSet, List.lookup, show (j == k) = false by simpa using h]
  | cons p t ih =>
      obtain ⟨a, b⟩ := p
      show List.lookup j (if a = k then (a, v) :: t else (a, b) :: alSet k v t) = _
      by_cases hp : a = k
      · simp [hp, List.lookup, show (j == k) = false by simpa using h]
      · by_cases hjp : j = a
        · simp [if_neg hp, List.lookup, hjp]
        · simp only [if_neg hp, List.lookup, show (j == a) = false by simpa using hjp]
          exact ih

theorem lookup_removeList (ks : List Int) (c : RCache) (j : Int) :
    List.lookup j (removeList ks c) =
      if j ∈ ks then none else List.lookup j c := by
  induction ks generalizing c with
  | nil => simp [removeList]
  | cons k t ih =>
      show List.lookup j (removeList t (alRemove k c)) = _
      rw [ih]
      by_cases hjk : j = k
      · subst hjk
        by_cases hjt : j ∈ t
        · simp [hjt]
        · simp [hjt, lookup_alRemove_self]
      · by_cases hjt : j ∈ t
        · simp [hjt, List.mem_cons, hjk]
        · simp [hjt, List.mem_cons, hjk, lookup_alRemove_ne j k c hjk]

theorem evictLoop_spec (max : Nat) (ao : List Int) :
    ∀ fc sc, evictLoop max ao fc sc =
      (ao.drop (ao.length - max),
       removeList (ao.take (ao.length - max)) fc,
       removeList (ao.take (ao.length - max)) sc) := by
  induction ao with
  | nil => intro fc sc; simp [evictLoop, removeList]
  | cons old rest ih =>
      intro fc sc
      show (if max < (old :: rest).length then _ else _) = _
      by_cases h : max < (old :: rest).length
      · rw [if_pos h, ih]
        have hd : (old :: rest).length - max = (rest.length - max) + 1 := by
          simp only [List.length_cons] at h ⊢
          omega
        rw [hd]
        simp [removeList]
      · rw [if_neg h]
        have hd : (old :: rest).length - max = 0 := by
          simp only [List.length_cons] at h ⊢
          omega
        rw [hd]
        simp [removeList]

/-- Well-formedness of a `JSONDataCache` state, as established by
`__init__` and maintained by `get_lines`/`clear`: positive configured
capacity, duplicate-free access order bounded by the capacity, and both
view caches holding exactly the keys listed in the access order. -/
structure CacheInv (st : JSONDataCache) : Prop where
  max_pos : 1 ≤ st.max_size
  nodup : st.access_order.Nodup
  size_le : st.access_order.length ≤ st.max_size
  full_keys : ∀ j : Int, (List.lookup j st.full_cache).isSome = true ↔ j ∈ st.access_order
  skel_keys : ∀ j : Int, (List.lookup j st.skeleton_cache).isSome = true ↔ j ∈ st.access_order

theorem cacheInv_empty (c : Nat) (hc : 1 ≤ c) : CacheInv (emptyCache c) := by
  refine ⟨hc, List.nodup_nil, by simp [emptyCache], ?_, ?_⟩ <;>
    · intro j; simp [emptyCache, List.lookup]

theorem cacheInv_clear (st : JSONDataCache) (h : CacheInv st) :
    CacheInv (clearCache st) := by
  refine ⟨h.max_pos, List.nodup_nil, by simp [clearCache], ?_, ?_⟩ <;>
    · intro j; simp [clearCache, List.lookup]

theorem cacheInv_get (st : JSONDataCache) (h : CacheInv st) (k : Int) (cols : Nat)
    (raw : Str) : CacheInv (get_lines st k cols raw).2 := by
  obtain ⟨hmax, hnd, hlen, hfk, hsk⟩ := h
  simp only [get_lines]
  rw [evictLoop_spec]
  set ao₀ := (if k ∈ st.access_order then st.access_order.erase k
      else st.access_order) with hao₀
  set d := (ao₀ ++ [k]).length - st.max_size with hd
  have hk₀ : k ∉ ao₀ := by
    rw [hao₀]
    by_cases hk : k ∈ st.access_order
    · rw [if_pos hk]
      intro hcon
      exact ((hnd.mem_erase_iff.mp hcon).1 rfl).elim
    · rw [if_neg hk]; exact hk
  have hnd₀ : ao₀.Nodup := by
    rw [hao₀]
    by_cases hk : k ∈ st.access_order
    · rw [if_pos hk]; exact hnd.erase k
    · rw [if_neg hk]; exact hnd
  have hmem₀ : ∀ j, j ≠ k → (j ∈ ao₀ ↔ j ∈ st.access_order) := by
    intro j hj
    rw [hao₀]
    by_cases hk : k ∈ st.access_order
    · rw [if_pos hk, hnd.mem_erase_iff]
      exact ⟨fun hh => hh.2, fun hh => ⟨hj, hh⟩⟩
    · rw [if_neg hk]
  have hlen₀ : ao₀.length ≤ st.max_size := by
    rw [hao₀]
    by_cases hk : k ∈ st.access_order
    · rw [if_pos hk, List.length_erase_of_mem hk]; omega
    · rw [if_neg hk]; exact hlen
  have hnd₁ : (ao₀ ++ [k]).Nodup := by
    rw [List.nodup_append]
    exact ⟨hnd₀, List.nodup_singleton k,
      fun a ha hb => hk₀ (by rwa [List.mem_singleton.mp hb] at ha)⟩
  have hlen₁ : (ao₀ ++ [k]).length = ao₀.length + 1 := by simp
  have hdle : d ≤ ao₀.length := by omega
  have hdrop : (ao₀ ++ [k]).drop d = ao₀.drop d ++ [k] :=
    List.drop_append_of_le_length hdle
  have hnd₂ : ((ao₀ ++ [k]).drop d).Nodup := (List.drop_sublist d _).nodup hnd₁
  have hlen₂ : ((ao₀ ++ [k]).drop d).length ≤ st.max_size := by
    rw [List.length_drop]
    omega
  have hkdrop : k ∈ (ao₀ ++ [k]).drop d := by
    rw [hdrop]
    exact List.mem_append.mpr (Or.inr (List.mem_singleton.mpr rfl))
  have hsplitnd : ((ao₀ ++ [k]).take d ++ (ao₀ ++ [k]).drop d).Nodup := by
    rw [List.take_append_drop]; exact hnd₁
  have hdisj : ∀ j, j ∈ (ao₀ ++ [k]).drop d → j ∉ (ao₀ ++ [k]).take d := by
    intro j hjd hjt
    exact (List.nodup_append.mp hsplitnd).2.2 hjt hjd
  have hktake : k ∉ (ao₀ ++ [k]).take d := hdisj k hkdrop
  have hmem₂ : ∀ j, j ∈ (ao₀ ++ [k]).drop d ↔
      (j ∈ ao₀ ++ [k] ∧ j ∉ (ao₀ ++ [k]).take d) := by
    intro j
    constructor
    · exact fun hj => ⟨List.mem_of_mem_drop hj, hdisj j hj⟩
    · intro ⟨hj₁, hj₂⟩
      have hj3 : j ∈ (ao₀ ++ [k]).take d ++ (ao₀ ++ [k]).drop d := by
        rw [List.take_append_drop]; exact hj₁
      rcases List.mem_append.mp hj3 with hh | hh
      · exact (hj₂ hh).elim
      · exact hh
  have hmem₁ : ∀ j, j ≠ k → (j ∈ ao₀ ++ [k] ↔ j ∈ st.access_order) := by
    intro j hj
    rw [List.mem_append, List.mem_singleton]
    constructor
    · intro hh
      rcases hh with hh | hh
      · exact (hmem₀ j hj).mp hh
      · exact (hj hh).elim
    · exact fun hh => Or.inl ((hmem₀ j hj).mpr hh)
  have hlf : ∀ j, List.lookup j (removeList ((ao₀ ++ [k]).take d) st.full_cache) =
      if j ∈ (ao₀ ++ [k]).take d then none else List.lookup j st.full_cache :=
    fun j => lookup_removeList _ _ j
  have hls : ∀ j, List.lookup j (removeList ((ao₀ ++ [k]).take d) st.skeleton_cache) =
      if j ∈ (ao₀ ++ [k]).take d then none else List.lookup j st.skeleton_cache :=
    fun j => lookup_removeList _ _ j
  rcases hfc : List.lookup k (removeList ((ao₀ ++ [k]).take d) st.full_cache) with _ | fl <;>
    rcases hsc : List.lookup k (removeList ((ao₀ ++ [k]).take d) st.skeleton_cache) with _ | sl
  · -- miss on both views: k was not cached; it is computed and stored
    refine ⟨hmax, hnd₂, hlen₂, ?_, ?_⟩
    · intro j
      by_cases hj : j = k
      · subst hj
        simp only [lookup_alSet_self]
        simpa using hkdrop
      · rw [lookup_alSet_ne j k _ _ hj, hlf j]
        by_cases hjt : j ∈ (ao₀ ++ [k]).take d
        · simp only [if_pos hjt, Option.isSome_none, Bool.false_eq_true, false_iff]
          intro hjd
          exact hdisj j hjd hjt
        · rw [if_neg hjt, hfk j, hmem₂ j]
          rw [hmem₁ j hj]
          exact ⟨fun hh => ⟨hh, hjt⟩, fun hh => hh.1⟩
    · intro j
      by_cases hj : j = k
      · subst hj
        simp only [lookup_alSet_self]
        simpa using hkdrop
      · rw [lookup_alSet_ne j k _ _ hj, hls j]
        by_cases hjt : j ∈ (ao₀ ++ [k]).take d
        · simp only [if_pos hjt, Option.isSome_none, Bool.false_eq_true, false_iff]
          intro hjd
          exact hdisj j hjd hjt
        · rw [if_neg hjt, hsk j, hmem₂ j]
          rw [hmem₁ j hj]
          exact ⟨fun hh => ⟨hh, hjt⟩, fun hh => hh.1⟩
  · -- full miss but skeleton hit: impossible under the invariant
    exfalso
    rw [hlf k, if_neg hktake] at hfc
    rw [hls k, if_neg hktake] at hsc
    have h2 : k ∈ st.access_order := (hsk k).mp (by rw [hsc]; rfl)
    have h1 := (hfk k).mpr h2
    rw [hfc] at h1
    exact absurd h1 (by simp)
  · -- full hit but skeleton miss: impossible under the invariant
    exfalso
    rw [hlf k, if_neg hktake] at hfc
    rw [hls k, if_neg hktake] at hsc
    have h2 : k ∈ st.access_order := (hfk k).mp (by rw [hfc]; rfl)
    have h1 := (hsk k).mpr h2
    rw [hsc] at h1
    exact absurd h1 (by simp)
  · -- hit on both views: cached lines are returned, caches unchanged
    refine ⟨hmax, hnd₂, hlen₂, ?_, ?_⟩
    · intro j
      rw [hlf j]
      by_cases hjt : j ∈ (ao₀ ++ [k]).take d
      · simp only [if_pos hjt, Option.isSome_none, Bool.false_eq_true, false_iff]
        intro hjd
        exact hdisj j hjd hjt
      · rw [if_neg hjt, hfk j, hmem₂ j]
        by_cases hj : j = k
        · subst hj
          have hkin : j ∈ st.access_order := by
            refine (hfk j).mp ?_
            rw [hlf j, if_neg hjt] at hfc
            rw [hfc]; rfl
          simp only [hkin, true_iff]
          exact ⟨List.mem_append.mpr (Or.inr (List.mem_singleton.mpr rfl)), hjt⟩
        · rw [hmem₁ j hj]
          exact ⟨fun hh => ⟨hh, hjt⟩, fun hh => hh.1⟩
    · intro j
      rw [hls j]
      by_cases hjt : j ∈ (ao₀ ++ [k]).take d
      · simp only [if_pos hjt, Option.isSome_none, Bool.false_eq_true, false_iff]
        intro hjd
        exact hdisj j hjd hjt
      · rw [if_neg hjt, hsk j, hmem₂ j]
        by_cases hj : j = k
        · subst hj
          have hkin : j ∈ st.access_order := by
            refine (hsk j).mp ?_
            rw [hls j, if_neg hjt] at hsc
            rw [hsc]; rfl
          simp only [hkin, true_iff]
          exact ⟨List.mem_append.mpr (Or.inr (List.mem_singleton.mpr rfl)), hjt⟩
        · rw [hmem₁ j hj]
          exact ⟨fun hh => ⟨hh, hjt⟩, fun hh => hh.1⟩

theorem cacheInv_applyGets (ops : List (Int × Nat × Str)) :
    ∀ st : JSONDataCache, CacheInv st → CacheInv (applyGets ops st) := by
  induction ops with
  | nil => exact fun st h => h
  | cons op rest ih =>
      intro st h
      show CacheInv (applyGets rest (get_lines st op.1 op.2.1 op.2.2).2)
      exact ih _ (cacheInv_get st h op.1 op.2.1 op.2.2)

theorem applyGets_append (l₁ l₂ : List (Int × Nat × Str)) (st : JSONDataCache) :
    applyGets (l₁ ++ l₂) st = applyGets l₂ (applyGets l₁ st) := by
  simp [applyGets, List.foldl_append]

/-- On a record already present in both view caches, `get_lines` returns
the cached pair — whatever width it was computed at — and leaves both
caches unchanged: only the access order moves. -/
theorem get_lines_hit (st : JSONDataCache) (h : CacheInv st) (k : Int)
    (f s : List Str) (cols : Nat) (raw : Str)
    (hf : List.lookup k st.full_cache = some f)
    (hs : List.lookup k st.skeleton_cache = some s) :
    (get_lines st k cols raw).1 = (f, s) ∧
    (get_lines st k cols raw).2.full_cache = st.full_cache ∧
    (get_lines st k cols raw).2.skeleton_cache = st.skeleton_cache := by
  obtain ⟨hmax, hnd, hlen, hfk, hsk⟩ := h
  have hkin : k ∈ st.access_order := (hfk k).mp (by rw [hf]; rfl)
  have hpos : 1 ≤ st.access_order.length :=
    List.length_pos.mpr (List.ne_nil_of_mem hkin)
  simp only [get_lines]
  rw [evictLoop_spec, if_pos hkin]
  have hle : (st.access_order.erase k ++ [k]).length - st.max_size = 0 := by
    rw [List.length_append, List.length_erase_of_mem hkin]
    simp only [List.length_singleton]
    omega
  rw [hle]
  simp only [List.drop_zero, List.take_zero]
  rw [show removeList [] st.full_cache = st.full_cache from rfl,
    show removeList [] st.skeleton_cache = st.skeleton_cache from rfl, hf, hs]
  exact ⟨rfl, rfl, rfl⟩

/-- After `clear`, the next `get_lines` recomputes at the width requested
then. -/
theorem get_lines_clear_computes (st : JSONDataCache) (hmax : 1 ≤ st.max_size)
    (k : Int) (cols : Nat) (raw : Str) :
    (get_lines (clearCache st) k cols raw).1 =
      ((compute_lines raw cols).1, (compute_lines raw cols).2) := by
  simp only [get_lines, clearCache]
  rw [evictLoop_spec]
  simp only [List.not_mem_nil, if_false, List.nil_append]
  have hle : ([k] : List Int).length - st.max_size = 0 := by
    simp only [List.length_singleton]
    omega
  rw [hle]
  simp only [List.drop_zero, List.take_zero]
  rw [show removeList [] ([] : RCache) = [] from rfl]
  rfl

theorem lookup_map_none (j : Int) (l : List Int) (f : Int → List Str)
    (h : j ∉ l) :
    List.lookup j (l.map (fun k => (k, f k))) = none := by
  induction l with
  | nil => rfl
  | cons a t ih =>
      have hja : j ≠ a := fun he => h (he ▸ List.mem_cons_self a t)
      show List.lookup j ((a, f a) :: t.map (fun k => (k, f k))) = none
      simp only [List.lookup, show (j == a) = false by simpa using hja]
      exact ih (fun hh => h (List.mem_cons_of_mem a hh))

theorem lookup_map_mem (j : Int) (l : List Int) (f : Int → List Str)
    (h : j ∈ l) :
    List.lookup j (l.map (fun k => (k, f k))) = some (f j) := by
  induction l with
  | nil => cases h
  | cons a t ih =>
      show List.lookup j ((a, f a) :: t.map (fun k => (k, f k))) = some (f j)
      by_cases hja : j = a
      · subst hja
        simp [List.lookup]
      · simp only [List.lookup, show (j == a) = false by simpa using hja]
        exact ih (by
          rcases List.mem_cons.mp h with hh | hh
          · exact (hja hh).elim
          · exact hh)

theorem alSet_of_not_mem (k : Int) (v : List Str) (c : RCache)
    (h : List.lookup k c = none) : alSet k v c = c ++ [(k, v)] := by
  induction c with
  | nil => rfl
  | cons p t ih =>
      obtain ⟨a, b⟩ := p
      have hka : ¬ a = k := by
        intro he
        subst he
        simp [List.lookup] at h
      show (if a = k then (a, v) :: t else (a, b) :: alSet k v t) = _
      rw [if_neg hka]
      have ht : List.lookup k t = none := by
        simpa [List.lookup, show (k == a) = false by simpa using fun he : k = a => hka he.symm] using h
      rw [ih ht]
      rfl

theorem alRemove_map_of_not_mem (a : Int) (t : List Int) (f : Int → List Str)
    (h : a ∉ t) :
    alRemove a (t.map (fun k => (k, f k))) = t.map (fun k => (k, f k)) := by
  induction t with
  | nil => rfl
  | cons b r ih =>
      have hba : b ≠ a := fun he => h (he ▸ List.mem_cons_self b r)
      show List.filter (fun p => p.1 != a) ((b, f b) :: r.map (fun k => (k, f k))) = _
      rw [List.filter_cons]
      simp only [show ((b, f b).1 != a) = true by simpa using hba, if_true]
      have := ih (fun hh => h (List.mem_cons_of_mem b hh))
      rw [show List.filter (fun p => p.1 != a) (r.map (fun k => (k, f k))) =
        alRemove a (r.map (fun k => (k, f k))) from rfl, this]
      rfl

/-- A `get_lines` miss on a fresh key with room to spare: the key is
appended to the order and the computed pair stored, nothing evicted. -/
theorem get_lines_fresh (st : JSONDataCache) (k : Int) (cols : Nat) (raw : Str)
    (hknot : k ∉ st.access_order)
    (hlf : List.lookup k st.full_cache = none)
    (hls : List.lookup k st.skeleton_cache = none)
    (hfit : st.access_order.length + 1 ≤ st.max_size) :
    (get_lines st k cols raw).2 =
      { st with access_order := st.access_order ++ [k],
                full_cache := alSet k (compute_lines raw cols).1 st.full_cache,
                skeleton_cache := alSet k (compute_lines raw cols).2 st.skeleton_cache } := by
  simp only [get_lines]
  rw [if_neg hknot, evictLoop_spec]
  have hle : (st.access_order ++ [k]).length - st.max_size = 0 := by
    rw [List.length_append]
    simp only [List.length_singleton]
    omega
  rw [hle]
  simp only [List.drop_zero, List.take_zero]
  rw [show removeList [] st.full_cache = st.full_cache from rfl,
    show removeList [] st.skeleton_cache = st.skeleton_cache from rfl, hlf, hls]

/-- Folding fresh inserts that all fit within the capacity builds the cache
whose entries and access order list exactly the inserted keys in order. -/
theorem applyGets_fresh (cols : Nat) (raw : Int → Str) (c : Nat) (ks₂ : List Int) :
    ∀ l : List Int, (l ++ ks₂).Nodup → (l ++ ks₂).length ≤ c →
      applyGets (ks₂.map (fun k => (k, cols, raw k)))
        ⟨c, l.map (fun k => (k, (compute_lines (raw k) cols).1)),
            l.map (fun k => (k, (compute_lines (raw k) cols).2)), l⟩ =
      ⟨c, (l ++ ks₂).map (fun k => (k, (compute_lines (raw k) cols).1)),
          (l ++ ks₂).map (fun k => (k, (compute_lines (raw k) cols).2)), l ++ ks₂⟩ := by
  induction ks₂ with
  | nil => intro l _ _; simp [applyGets]
  | cons k rest ih =>
      intro l hnd hlen
      have hkl : k ∉ l := by
        intro hk
        have := (List.nodup_append.mp hnd).2.2
        exact this hk (List.mem_cons_self k rest)
      have hstep := get_lines_fresh
        ⟨c, l.map (fun j => (j, (compute_lines (raw j) cols).1)),
            l.map (fun j => (j, (compute_lines (raw j) cols).2)), l⟩
        k cols (raw k) hkl
        (lookup_map_none k l _ hkl) (lookup_map_none k l _ hkl)
        (by
          show l.length + 1 ≤ c
          have hl : (l ++ k :: rest).length = l.length + (rest.length + 1) := by
            simp
          omega)
      show applyGets (rest.map (fun j => (j, cols, raw j)))
        (get_lines _ k cols (raw k)).2 = _
      rw [hstep]
      have hset1 : alSet k (compute_lines (raw k) cols).1
          (l.map (fun j => (j, (compute_lines (raw j) cols).1))) =
          (l ++ [k]).map (fun j => (j, (compute_lines (raw j) cols).1)) := by
        rw [alSet_of_not_mem _ _ _ (lookup_map_none k l _ hkl)]
        simp
      have hset2 : alSet k (compute_lines (raw k) cols).2
          (l.map (fun j => (j, (compute_lines (raw j) cols).2))) =
          (l ++ [k]).map (fun j => (j, (compute_lines (raw j) cols).2)) := by
        rw [alSet_of_not_mem _ _ _ (lookup_map_none k l _ hkl)]
        simp
      have hassoc : l ++ [k] ++ rest = l ++ k :: rest := by simp
      have := ih (l ++ [k]) (by rw [hassoc]; exact hnd) (by rw [hassoc]; exact hlen)
      rw [hset1, hset2]
      rw [this, hassoc]

/-- The overflowing insert: with the cache full (`length = capacity`) and a
fresh key arriving, the eviction loop pops exactly the least recently used
key `a`, removing its entries from BOTH view caches, before the new pair is
stored. -/
theorem get_lines_evict_step (c : Nat) (a : Int) (t : List Int) (k : Int)
    (cols : Nat) (raw : Int → Str) (hnd : (a :: (t ++ [k])).Nodup)
    (hlen : (a :: t).length = c) :
    (get_lines ⟨c, (a :: t).map (fun j => (j, (compute_lines (raw j) cols).1)),
                   (a :: t).map (fun j => (j, (compute_lines (raw j) cols).2)),
                   a :: t⟩ k cols (raw k)).2 =
      ⟨c, (t ++ [k]).map (fun j => (j, (compute_lines (raw j) cols).1)),
          (t ++ [k]).map (fun j => (j, (compute_lines (raw j) cols).2)),
          t ++ [k]⟩ := by
  have hnd' := List.nodup_cons.mp hnd
  have hat : a ∉ t := fun hh => hnd'.1 (List.mem_append.mpr (Or.inl hh))
  have hak : a ≠ k := fun hh =>
    hnd'.1 (List.mem_append.mpr (Or.inr (List.mem_singleton.mpr hh)))
  have hkt : k ∉ t := by
    intro hk
    have := (List.nodup_append.mp hnd'.2).2.2
    exact this hk (List.mem_singleton.mpr rfl)
  have hknotin : k ∉ a :: t := by
    intro hk
    rcases List.mem_cons.mp hk with hh | hh
    · exact hak hh.symm
    · exact hkt hh
  simp only [get_lines]
  rw [if_neg hknotin, evictLoop_spec]
  have hle : ((a :: t) ++ [k]).length - c = 1 := by
    rw [List.length_append]
    simp only [List.length_singleton]
    omega
  rw [hle]
  have hcons : (a :: t) ++ [k] = a :: (t ++ [k]) := rfl
  rw [hcons]
  simp only [List.drop_succ_cons, List.drop_zero, List.take_succ_cons, List.take_zero]
  have hrem1 : removeList [a] ((a :: t).map (fun j => (j, (compute_lines (raw j) cols).1))) =
      t.map (fun j => (j, (compute_lines (raw j) cols).1)) := by
    show alRemove a ((a, (compute_lines (raw a) cols).1) ::
      t.map (fun j => (j, (compute_lines (raw j) cols).1))) = _
    unfold alRemove
    rw [List.filter_cons]
    simp only [show ((a, (compute_lines (raw a) cols).1).1 != a) = false by simp, if_false]
    exact alRemove_map_of_not_mem a t _ hat
  have hrem2 : removeList [a] ((a :: t).map (fun j => (j, (compute_lines (raw j) cols).2))) =
      t.map (fun j => (j, (compute_lines (raw j) cols).2)) := by
    show alRemove a ((a, (compute_lines (raw a) cols).2) ::
      t.map (fun j => (j, (compute_lines (raw j) cols).2))) = _
    unfold alRemove
    rw [List.filter_cons]
    simp only [show ((a, (compute_lines (raw a) cols).2).1 != a) = false by simp, if_false]
    exact alRemove_map_of_not_mem a t _ hat
  rw [hrem1, hrem2, lookup_map_none k t _ hkt]
  have hset1 : alSet k (compute_lines (raw k) cols).1
      (t.map (fun j => (j, (compute_lines (raw j) cols).1))) =
      (t ++ [k]).map (fun j => (j, (compute_lines (raw j) cols).1)) := by
    rw [alSet_of_not_mem _ _ _ (lookup_map_none k t _ hkt)]
    simp
  have hset2 : alSet k (compute_lines (raw k) cols).2
      (t.map (fun j => (j, (compute_lines (raw j) cols).2))) =
      (t ++ [k]).map (fun j => (j, (compute_lines (raw j) cols).2)) := by
    rw [alSet_of_not_mem _ _ _ (lookup_map_none k t _ hkt)]
    simp
  show (((compute_lines (raw k) cols).1, (compute_lines (raw k) cols).2),
    ({ max_size := c,
       full_cache := alSet k (compute_lines (raw k) cols).1
         (t.map (fun j => (j, (compute_lines (raw j) cols).1))),
       skeleton_cache := alSet k (compute_lines (raw k) cols).2
         (t.map (fun j => (j, (compute_lines (raw j) cols).2))),
       access_order := t ++ [k] } : JSONDataCache)).2 = _
  rw [hset1, hset2]

/-- C10: after every render-cache operation (`get_lines` or `clear`) from a
well-formed state, the full-view cache and the skeleton-view cache hold
exactly the same set of record-index keys, the access-order list contains
every cached key and is duplicate-free, and eviction removes a record's
full and skeleton entries together — stated as preservation of `CacheInv`
(whose key-set clauses tie both caches to the one access order) plus the
explicit corollaries. -/
theorem C10_cache_view_consistency (st : JSONDataCache) (h : CacheInv st) (k : Int)
    (cols : Nat) (raw : Str) :
    CacheInv (get_lines st k cols raw).2 ∧
    CacheInv (clearCache st) ∧
    (∀ j : Int,
      (List.lookup j (get_lines st k cols raw).2.full_cache).isSome = true ↔
      (List.lookup j (get_lines st k cols raw).2.skeleton_cache).isSome = true) ∧
    (∀ j : Int,
      (List.lookup j (get_lines st k cols raw).2.full_cache).isSome = true ↔
      j ∈ (get_lines st k cols raw).2.access_order) ∧
    (get_lines st k cols raw).2.access_order.Nodup ∧
    (∀ j : Int,
      (List.lookup j (clearCache st).full_cache).isSome = true ↔
      (List.lookup j (clearCache st).skeleton_cache).isSome = true) := by
  have h1 := cacheInv_get st h k cols raw
  have h2 := cacheInv_clear st h
  exact ⟨h1, h2, fun j => (h1.full_keys j).trans (h1.skel_keys j).symm,
    h1.full_keys, h1.nodup, fun j => (h2.full_keys j).trans (h2.skel_keys j).symm⟩

/-- Witness for C10 at the freshly initialized cache of capacity 50. -/
theorem C10_cache_view_consistency_witness :
    CacheInv (emptyCache 50) ∧
    (get_lines (emptyCache 50) 0 5 "x".data).2.access_order.Nodup ∧
    ((List.lookup 0 (get_lines (emptyCache 50) 0 5 "x".data).2.full_cache).isSome = true ↔
     (List.lookup 0 (get_lines (emptyCache 50) 0 5 "x".data).2.skeleton_cache).isSome = true) :=
  ⟨cacheInv_empty 50 (by decide),
   (C10_cache_view_consistency (emptyCache 50) (cacheInv_empty 50 (by decide))
     0 5 "x".data).2.2.2.2.1,
   (C10_cache_view_consistency (emptyCache 50) (cacheInv_empty 50 (by decide))
     0 5 "x".data).2.2.1 0⟩

/-- C3 counterexample: the record at index 0 is first rendered at width 5;
a later get for the same record at width 10 is served the cached width-5
wrapping, which differs from the width-10 wrapping — a stale wrapped width
is served, refuting the claim. -/
theorem C3_counterexample :
    (get_lines (get_lines (emptyCache 50) 0 5 "x".data).2 0 10 "x".data).1 =
      compute_lines "x".data 5 ∧
    compute_lines "x".data 5 ≠ compute_lines "x".data 10 := by
  refine ⟨by decide, by decide⟩

/-- C3 amended: the render-cache key is the record index alone
(`cache_key = data_index`), so a get for a cached record returns the
cached pair unchanged regardless of the width requested now — stale widths
ARE served after a resize — and only an explicit `clear` forces the next
get to rewrap at the newly requested width. -/
theorem C3_amended_width_ignored (st : JSONDataCache) (h : CacheInv st) (k : Int)
    (f s : List Str) (w₂ : Nat) (raw : Str)
    (hf : List.lookup k st.full_cache = some f)
    (hs : List.lookup k st.skeleton_cache = some s) :
    (get_lines st k w₂ raw).1 = (f, s) ∧
    (get_lines st k w₂ raw).2.full_cache = st.full_cache ∧
    (get_lines st k w₂ raw).2.skeleton_cache = st.skeleton_cache ∧
    (get_lines (clearCache st) k w₂ raw).1 =
      ((compute_lines raw w₂).1, (compute_lines raw w₂).2) := by
  obtain ⟨ha, hb, hc⟩ := get_lines_hit st h k f s w₂ raw hf hs
  exact ⟨ha, hb, hc, get_lines_clear_computes st h.max_pos k w₂ raw⟩

/-- Witness for C3 amended: after caching record 0 at width 5, a get at
width 10 returns the width-5 lines. -/
theorem C3_amended_width_ignored_witness :
    List.lookup 0 (get_lines (emptyCache 50) 0 5 "x".data).2.full_cache =
      some (compute_lines "x".data 5).1 ∧
    (get_lines (get_lines (emptyCache 50) 0 5 "x".data).2 0 10 "x".data).1 =
      ((compute_lines "x".data 5).1, (compute_lines "x".data 5).2) :=
  ⟨by decide,
   (C3_amended_width_ignored (get_lines (emptyCache 50) 0 5 "x".data).2
      (cacheInv_get (emptyCache 50) (cacheInv_empty 50 (by decide)) 0 5 "x".data)
      0 (compute_lines "x".data 5).1 (compute_lines "x".data 5).2 10 "x".data
      (by decide) (by decide)).1⟩

/-- C4: (i) from any well-formed state, any sequence of gets preserves
`CacheInv`, whose `size_le` clause bounds the cached entries by the
configured capacity; (ii) inserting `capacity + 1` distinct keys in order
into a fresh cache evicts exactly the first key `k1` — from both view
caches — while `k2..k_{capacity+1}` remain cached with the value computed
at insertion (so a further get is a pure cache hit, no recomputation). -/
theorem C4_lru_eviction :
    (∀ (st : JSONDataCache) (ops : List (Int × Nat × Str)),
        CacheInv st → CacheInv (applyGets ops st)) ∧
    (∀ c : Nat, 1 ≤ c → ∀ ks : List Int, ks.Nodup → ks.length = c + 1 →
     ∀ (cols : Nat) (raw : Int → Str) (k1 : Int), ks.head? = some k1 →
       List.lookup k1
         (applyGets (ks.map (fun k => (k, cols, raw k))) (emptyCache c)).full_cache = none ∧
       List.lookup k1
         (applyGets (ks.map (fun k => (k, cols, raw k))) (emptyCache c)).skeleton_cache = none ∧
       ∀ k ∈ ks.tail,
         List.lookup k
           (applyGets (ks.map (fun k => (k, cols, raw k))) (emptyCache c)).full_cache =
             some (compute_lines (raw k) cols).1 ∧
         List.lookup k
           (applyGets (ks.map (fun k => (k, cols, raw k))) (emptyCache c)).skeleton_cache =
             some (compute_lines (raw k) cols).2) := by
  refine ⟨fun st ops h => cacheInv_applyGets ops st h, ?_⟩
  intro c hc ks hnd hlen cols raw k1 hhead
  cases ks with
  | nil => cases hhead
  | cons a rest =>
      have ha : a = k1 := by simpa using hhead
      subst ha
      have hanotr : a ∉ rest := (List.nodup_cons.mp hnd).1
      have hrlen : rest.length = c := by simpa using hlen
      have hrne : rest ≠ [] := by
        intro he
        rw [he] at hrlen
        simp at hrlen
        omega
      have hrsplit : rest.dropLast ++ [rest.getLast hrne] = rest :=
        List.dropLast_append_getLast hrne
      have hks : a :: rest = (a :: rest.dropLast) ++ [rest.getLast hrne] := by
        show a :: rest = a :: (rest.dropLast ++ [rest.getLast hrne])
        rw [hrsplit]
      have hinitnd : ((a :: rest.dropLast) ++ [rest.getLast hrne]).Nodup := by
        rw [← hks]; exact hnd
      have hrpos : 1 ≤ rest.length := List.length_pos.mpr hrne
      have hinitlen : (a :: rest.dropLast).length = c := by
        simp only [List.length_cons, List.length_dropLast]
        omega
      have hfresh := applyGets_fresh cols raw c (a :: rest.dropLast) []
        (by
          simp only [List.nil_append]
          exact (List.Sublist.cons₂ a (List.dropLast_sublist rest)).nodup hnd)
        (by
          simp only [List.nil_append]
          rw [hinitlen])
      simp only [List.nil_append] at hfresh
      have hfinal : applyGets ((a :: rest).map (fun k => (k, cols, raw k))) (emptyCache c) =
          ⟨c, rest.map (fun j => (j, (compute_lines (raw j) cols).1)),
              rest.map (fun j => (j, (compute_lines (raw j) cols).2)), rest⟩ := by
        rw [hks, List.map_append, applyGets_append]
        rw [show emptyCache c =
          ⟨c, ([] : List Int).map (fun j => (j, (compute_lines (raw j) cols).1)),
              ([] : List Int).map (fun j => (j, (compute_lines (raw j) cols).2)),
              ([] : List Int)⟩ from rfl]
        rw [hfresh]
        show (get_lines _ (rest.getLast hrne) cols (raw (rest.getLast hrne))).2 = _
        rw [get_lines_evict_step c a rest.dropLast (rest.getLast hrne) cols raw
          (by
            show (a :: (rest.dropLast ++ [rest.getLast hrne])).Nodup
            rw [hrsplit]; exact hnd)
          hinitlen]
        rw [hrsplit]
      rw [hfinal]
      refine ⟨lookup_map_none a rest _ hanotr, lookup_map_none a rest _ hanotr, ?_⟩
      intro k hk
      have hk' : k ∈ rest := by simpa using hk
      exact ⟨lookup_map_mem k rest _ hk', lookup_map_mem k rest _ hk'⟩

/-- Witness for C4 with capacity 2 and the key sequence 0, 1, 2. -/
theorem C4_lru_eviction_witness :
    CacheInv (applyGets [((0 : Int), 5, "x".data)] (emptyCache 2)) ∧
    List.lookup 0
      (applyGets (([0, 1, 2] : List Int).map (fun k => (k, 5, "x".data)))
        (emptyCache 2)).full_cache = none ∧
    List.lookup 1
      (applyGets (([0, 1, 2] : List Int).map (fun k => (k, 5, "x".data)))
        (emptyCache 2)).full_cache = some (compute_lines "x".data 5).1 ∧
    List.lookup 2
      (applyGets (([0, 1, 2] : List Int).map (fun k => (k, 5, "x".data)))
        (emptyCache 2)).skeleton_cache = some (compute_lines "x".data 5).2 :=
  ⟨C4_lru_eviction.1 (emptyCache 2) [((0 : Int), 5, "x".data)] (cacheInv_empty 2 (by decide)),
   (C4_lru_eviction.2 2 (by decide) [0, 1, 2] (by decide) (by decide) 5
     (fun _ => "x".data) 0 (by decide)).1,
   ((C4_lru_eviction.2 2 (by decide) [0, 1, 2] (by decide) (by decide) 5
     (fun _ => "x".data) 0 (by decide)).2.2 1 (by decide)).1,
   ((C4_lru_eviction.2 2 (by decide) [0, 1, 2] (by decide) (by decide) 5
     (fun _ => "x".data) 0 (by decide)).2.2 2 (by decide)).2⟩

/-- C9 counterexample: with 5 records, selection at index 2, scroll 7 and
jump buffer "100", ENTER leaves the selection at 2 and the scroll at 7
(clearing only the buffer), whereas clamping the 1-based target 100 into
the valid range would move the selection to index 4. -/
theorem C9_counterexample :
    jump_enter "100".data 2 7 5 = (2, 7, []) ∧
    jump_enter "100".data 2 7 5 ≠ (4, 0, []) := by
  refine ⟨by decide, by decide⟩

/-- C9 amended: ENTER in JUMP mode parses the digit buffer as a 1-based
record number; an in-range target jumps (selection := target, scroll := 0)
and clears the buffer; an out-of-range target is silently IGNORED — the
selection and scroll stay unchanged rather than being clamped to a
boundary — though the buffer is still cleared; a parse failure (empty
buffer) is a complete no-op leaving the buffer unchanged.  A selection
that started in range stays in range, so the out-of-bounds index is never
surfaced to the user. -/
theorem C9_amended_jump_enter (buf : Str) (sd sl : Int) (n : Nat)
    (hsd : 0 ≤ sd ∧ sd < (n : Int)) :
    (pyIntOfBuffer buf = none → jump_enter buf sd sl n = (sd, sl, buf)) ∧
    (∀ v, pyIntOfBuffer buf = some v → 0 ≤ v - 1 → v - 1 < (n : Int) →
        jump_enter buf sd sl n = (v - 1, 0, [])) ∧
    (∀ v, pyIntOfBuffer buf = some v → ¬(0 ≤ v - 1 ∧ v - 1 < (n : Int)) →
        jump_enter buf sd sl n = (sd, sl, [])) ∧
    (0 ≤ (jump_enter buf sd sl n).1 ∧ (jump_enter buf sd sl n).1 < (n : Int)) := by
  unfold jump_enter
  rcases hb : pyIntOfBuffer buf with _ | v
  · exact ⟨fun _ => rfl, fun w hw => absurd hw (by simp),
      fun w hw => absurd hw (by simp), hsd⟩
  · refine ⟨fun hcon => absurd hcon (by simp), ?_, ?_, ?_⟩
    · intro w hw h1 h2
      have hwv : w = v := by
        have hww := hw
        simp only [Option.some.injEq] at hww
        exact hww.symm
      subst hwv
      show (if 0 ≤ w - 1 ∧ w - 1 < (n : Int) then (w - 1, 0, ([] : Str))
        else (sd, sl, ([] : Str))) = (w - 1, 0, ([] : Str))
      rw [if_pos ⟨h1, h2⟩]
    · intro w hw hcon
      have hwv : w = v := by
        have hww := hw
        simp only [Option.some.injEq] at hww
        exact hww.symm
      subst hwv
      show (if 0 ≤ w - 1 ∧ w - 1 < (n : Int) then (w - 1, 0, ([] : Str))
        else (sd, sl, ([] : Str))) = (sd, sl, ([] : Str))
      rw [if_neg hcon]
    · show 0 ≤ (if 0 ≤ v - 1 ∧ v - 1 < (n : Int) then (v - 1, 0, ([] : Str))
          else (sd, sl, ([] : Str))).1 ∧
        (if 0 ≤ v - 1 ∧ v - 1 < (n : Int) then (v - 1, 0, ([] : Str))
          else (sd, sl, ([] : Str))).1 < (n : Int)
      by_cases hcond : 0 ≤ v - 1 ∧ v - 1 < (n : Int)
      · rw [if_pos hcond]
        exact hcond
      · rw [if_neg hcond]
        exact hsd

/-- Witness for C9 amended: selection 2 of 5 records, buffer "100". -/
theorem C9_amended_jump_enter_witness :
    ((0 : Int) ≤ 2 ∧ (2 : Int) < ((5 : Nat) : Int)) ∧
    (0 ≤ (jump_enter "100".data 2 7 5).1 ∧
     (jump_enter "100".data 2 7 5).1 < ((5 : Nat) : Int)) :=
  ⟨by decide, (C9_amended_jump_enter "100".data 2 7 5 (by decide)).2.2.2⟩

/-- Model of Python `f.readlines()` on decoded file content: split on
newline with each line KEEPING its trailing newline; empty content gives
no lines. -/
def readlinesOf : Str → List Str
  | [] => []
  | '\n' :: rest => ['\n'] :: readlinesOf rest
  | c :: rest =>
      match readlinesOf rest with
      | h :: t => (c :: h) :: t
      | [] => [[c]]

/-- Model of Python `l.split('\t')`. -/
def splitOnTab : Str → List Str
  | [] => [[]]
  | '\t' :: rest => [] :: splitOnTab rest
  | c :: rest =>
      match splitOnTab rest with
      | h :: t => (c :: h) :: t
      | [] => [[c]]

/-- Modelled from Python: `str(e)` for the `FileNotFoundError` raised by
`open` on a missing file. -/
def ioErrMsg (path : Str) : Str :=
  "[Errno 2] No such file or directory: '".data ++ path ++ "'".data

/-- Modelled from Python: `str(e)` for a `json.JSONDecodeError`.  The real
message carries the failure position; no claim inspects the text, only
that it is the lone record. -/
def jsonDecodeErrMsg : Str := "Expecting value: line 1 column 1 (char 0)".data

/-- `read_jsonl` (file_explorer.py:398-401).  NOTE: the body has no
try/except — if the file cannot be opened, the `open` exception propagates
to the caller (modelled as `Except.error`). -/
def read_jsonl (fs : Str → Option Str) (path : Str) : Except Str (List Str) :=
  match fs path with
  | none => .error (ioErrMsg path)
  | some content => .ok (readlinesOf content)

/-- `read_json` (file_explorer.py:404-414): the whole body sits in
`try/except Exception`, so an open or parse failure is caught and returned
as the single record `[str(e)]`; a parsed top-level list becomes one
compact-serialized record per element, any other top-level value one
record. -/
def read_json (fs : Str → Option Str) (path : Str) : Except Str (List Str) :=
  match fs path with
  | none => .ok [ioErrMsg path]
  | some content =>
      match json_loads content with
      | none => .ok [jsonDecodeErrMsg]
      | some v =>
          match v with
          | .arr items => .ok (items.map json_dumps_compact)
          | w => .ok [json_dumps_compact w]

/-- `read_txt` (file_explorer.py:417-423): the comprehension takes field
index 1 of each line split on TAB; a line with fewer than two fields
raises `IndexError` inside `try/except Exception`, so the whole load
degrades to the single record `[str(e)]` (= "list index out of range");
an open failure is caught the same way. -/
def read_txt (fs : Str → Option Str) (path : Str) : Except Str (List Str) :=
  match fs path with
  | none => .ok [ioErrMsg path]
  | some content =>
      let lines := readlinesOf content
      if lines.all (fun l => 2 ≤ (splitOnTab l).length) then
        .ok (lines.map (fun l => (splitOnTab l).getD 1 []))
      else .ok ["list index out of range".data]

/-- C7 counterexample: an unopenable `.jsonl` file does NOT yield a
single-error-record source — `read_jsonl` has no handler, so the open
failure escapes as an exception. -/
theorem C7_counterexample :
    read_jsonl (fun _ => none) "a.jsonl".data =
      Except.error (ioErrMsg "a.jsonl".data) ∧
    read_jsonl (fun _ => none) "a.jsonl".data ≠
      Except.ok [ioErrMsg "a.jsonl".data] := by
  refine ⟨rfl, fun hcon => ?_⟩
  rw [show read_jsonl (fun _ => none) "a.jsonl".data =
    Except.error (ioErrMsg "a.jsonl".data) from rfl] at hcon
  exact Except.noConfusion hcon

/-- C7 amended: the single-error-record failure policy holds for `.json`
and `.txt` — `read_json` and `read_txt` never let an exception escape on
any input, an unopenable file yields exactly one human-readable error
record, an unparseable `.json` content yields exactly the one record
`[str(JSONDecodeError)]`, and a `.txt` content with a malformed line
(fewer than two tab-fields) yields exactly the one record
`["list index out of range"]` — but NOT for `.jsonl`: `read_jsonl`
propagates the open failure as an exception. -/
theorem C7_amended_failure_policy (fs : Str → Option Str) (path : Str)
    (h : fs path = none) :
    (∀ (fs' : Str → Option Str) (p : Str),
        (∃ rs, read_json fs' p = .ok rs) ∧ (∃ rs, read_txt fs' p = .ok rs)) ∧
    read_json fs path = .ok [ioErrMsg path] ∧
    read_txt fs path = .ok [ioErrMsg path] ∧
    read_jsonl fs path = .error (ioErrMsg path) ∧
    (∀ (fs' : Str → Option Str) (p content : Str), fs' p = some content →
        json_loads content = none →
        read_json fs' p = .ok [jsonDecodeErrMsg]) ∧
    (∀ (fs' : Str → Option Str) (p content l : Str), fs' p = some content →
        l ∈ readlinesOf content → (splitOnTab l).length < 2 →
        read_txt fs' p = .ok ["list index out of range".data]) := by
  refine ⟨?_, ?_, ?_, ?_, ?_, ?_⟩
  · intro fs' p
    constructor
    · unfold read_json
      rcases fs' p with _ | content
      · exact ⟨_, rfl⟩
      · dsimp only
        rcases json_loads content with _ | v
        · exact ⟨_, rfl⟩
        · cases v <;> exact ⟨_, rfl⟩
    · unfold read_txt
      rcases fs' p with _ | content
      · exact ⟨_, rfl⟩
      · dsimp only
        by_cases hall :
          ((readlinesOf content).all (fun l => 2 ≤ (splitOnTab l).length)) = true
        · rw [if_pos hall]
          exact ⟨_, rfl⟩
        · rw [if_neg hall]
          exact ⟨_, rfl⟩
  · unfold read_json
    rw [h]
  · unfold read_txt
    rw [h]
  · unfold read_jsonl
    rw [h]
  · intro fs' p content hfs hparse
    unfold read_json
    rw [hfs]
    dsimp only
    rw [hparse]
  · intro fs' p content l hfs hl hshort
    unfold read_txt
    rw [hfs]
    dsimp only
    have hall : ¬ (((readlinesOf content).all
        (fun l => 2 ≤ (splitOnTab l).length)) = true) := by
      intro hcon
      rw [List.all_eq_true] at hcon
      have h2 := hcon l hl
      rw [decide_eq_true_eq] at h2
      omega
    rw [if_neg hall]

/-- Witness for C7 amended at a filesystem with no files (open failure),
plus the parse-failure instances: the unparseable `.json` content `"x"`
and the tabless `.txt` line `"notab"`, each yielding exactly one error
record. -/
theorem C7_amended_failure_policy_witness :
    ((fun _ : Str => (none : Option Str)) "a.json".data = none) ∧
    read_json (fun _ => none) "a.json".data =
      Except.ok [ioErrMsg "a.json".data] ∧
    read_txt (fun _ => none) "a.json".data =
      Except.ok [ioErrMsg "a.json".data] ∧
    read_json (fun _ => some "x".data) "b.json".data =
      Except.ok [jsonDecodeErrMsg] ∧
    read_txt (fun _ => some "notab".data) "c.txt".data =
      Except.ok ["list index out of range".data] :=
  ⟨rfl,
   (C7_amended_failure_policy (fun _ => none) "a.json".data rfl).2.1,
   (C7_amended_failure_policy (fun _ => none) "a.json".data rfl).2.2.1,
   (C7_amended_failure_policy (fun _ => none) "a.json".data rfl).2.2.2.2.1
     (fun _ => some "x".data) "b.json".data "x".data rfl (by rfl),
   (C7_amended_failure_policy (fun _ => none) "a.json".data rfl).2.2.2.2.2
     (fun _ => some "notab".data) "c.txt".data "notab".data "notab".data
     rfl (by decide) (by decide)⟩

/-- A directory path as a stack of components: `os.path.normpath(join(p,
name))` pushes a component, and with `"../"` pops one. -/
abbrev DirPath := List Str

/-- One directory-history entry (file_explorer.py:564): the directory's
last unfiltered listing snapshot and its saved selection index. -/
structure HistEntry where
  original_files : List Str
  selected_index : Int

abbrev Hist := List (DirPath × HistEntry)

def histLookup (hist : Hist) (p : DirPath) : Option HistEntry :=
  List.lookup p hist

/-- Python dict assignment on the history. -/
def histSet (p : DirPath) (e : HistEntry) : Hist → Hist
  | [] => [(p, e)]
  | (q, f) :: t => if q = p then (q, e) :: t else (q, f) :: histSet p e t

/-- The navigation loop's state (file_explorer.py:557-567 and the
loop-carried variables of file_explorer.py:569-651). -/
structure NavState where
  current_path : DirPath
  selected_file : Int
  search_str : Str
  path_history : Hist
  files : List Str
  original_files : List Str

/-- The input events the navigation claims exercise.  ESC (process exit,
file_explorer.py:601-602) is outside the model. -/
inductive NavKey where
  | char (c : Char)
  | backspace
  | up
  | down
  | left
  | right
  | enter

/-- Python `s.lower()` (ASCII; the directory names the claims exercise are
ASCII). -/
def pyLower (s : Str) : Str := s.map Char.toLower

/-- Filtering core of `list_files` (file_explorer.py:184-196): with a
non-empty search string keep the entries whose lowercase name contains the
lowercase search string.  (The drawing code, and the function-local
`selected_file` reset at file_explorer.py:193-196, have no effect outside
`list_files`.) -/
def list_files_core (original_files : List Str) (search_str : Str) : List Str :=
  if search_str ≠ [] then
    original_files.filter (fun p => pyContains (pyLower search_str) (pyLower p))
  else original_files

/-- `os.path.normpath(os.path.join(p, name))` for the shapes the explorer
produces: `"../"` pops a component; a folder entry (trailing `/`) or file
name pushes one. -/
def joinNorm (p : DirPath) (name : Str) : DirPath :=
  if name = "../".data then p.dropLast
  else if name.getLast? = some '/' then p ++ [name.dropLast]
  else p ++ [name]

/-- The save-selection-by-name block, duplicated in the source at
file_explorer.py:585-592 (backspace) and file_explorer.py:616-623 (enter):
if the current directory has a history entry, resolve the currently
selected (possibly filtered) entry's NAME back to its index in the
directory's snapshot `original_files` and store that index. -/
def save_selection (st : NavState) : Hist :=
  match histLookup st.path_history st.current_path with
  | none => st.path_history
  | some entry =>
      if st.files ≠ [] ∧ 0 ≤ st.selected_file ∧
          st.selected_file < (st.files.length : Int) then
        let selected_filename := st.files.getD st.selected_file.toNat []
        if selected_filename ∈ entry.original_files then
          histSet st.current_path
            { entry with selected_index :=
                (entry.original_files.indexOf selected_filename : Int) }
            st.path_history
        else st.path_history
      else st.path_history

/-- One iteration of the `file_explorer` event loop
(file_explorer.py:569-651) for the modelled keys.  `dirs` models
`os.path.isdir`; `listing` models `file_cache.get_files` at this instant
(the `FileCache` mtime check is folded into the provider).  The open-file
branch (`display_data`, file_explorer.py:634-640) does not change the
navigation state and falls through to the common tail.  Python would raise
on `files[selected_file]` out of range or on a modulo by zero; the model
totalizes these (`getD`, `x % 0 = x`), and every state exercised here
keeps them in range. -/
def nav_step (dirs : List DirPath) (listing : DirPath → List Str) (rows : Int)
    (key : NavKey) (st : NavState) : NavState :=
  let st1 : NavState :=
    match key with
    | .char c =>
        if 32 ≤ c.toNat ∧ c.toNat ≤ 126 then
          { st with search_str := st.search_str ++ [c], selected_file := 0 }
        else st
    | .backspace =>
        if st.search_str ≠ [] then
          { st with search_str := st.search_str.dropLast, selected_file := 0 }
        else
          let hist₁ := save_selection st
          let parent := st.current_path.dropLast
          { st with
            current_path := parent,
            path_history := hist₁,
            selected_file :=
              match histLookup hist₁ parent with
              | some e => e.selected_index
              | none => 0,
            search_str := [] }
    | .right =>
        { st with selected_file :=
            (st.selected_file + (rows - 3)) % (st.files.length : Int) }
    | .left =>
        { st with selected_file :=
            (st.selected_file - (rows - 3)) % (st.files.length : Int) }
    | .up =>
        { st with selected_file :=
            (st.selected_file - 1) % (st.files.length : Int) }
    | .down =>
        { st with selected_file :=
            (st.selected_file + 1) % (st.files.length : Int) }
    | .enter =>
        if st.files ≠ [] then
          let name := st.files.getD st.selected_file.toNat []
          let new_path := joinNorm st.current_path name
          if new_path ∈ dirs then
            let hist₁ := save_selection st
            { st with
              current_path := new_path,
              path_history := hist₁,
              selected_file :=
                if name = "../".data then
                  match histLookup hist₁ new_path with
                  | some e => e.selected_index
                  | none => 0
                else 0,
              search_str := [] }
          else st
        else st
  let originals := listing st1.current_path
  let files' := list_files_core originals st1.search_str
  let hist₂ :=
    match histLookup st1.path_history st1.current_path with
    | none => st1.path_history ++ [(st1.current_path, ⟨originals, st1.selected_file⟩)]
    | some e =>
        histSet st1.current_path { e with original_files := originals } st1.path_history
  { st1 with files := files', original_files := originals, path_history := hist₂ }

/-- A run of the event loop over a key sequence. -/
def nav_run (dirs : List DirPath) (listing : DirPath → List Str) (rows : Int)
    (keys : List NavKey) (st : NavState) : NavState :=
  keys.foldl (fun s k => nav_step dirs listing rows k s) st

/-- Start-up state (file_explorer.py:557-567). -/
def nav_init (listing : DirPath → List Str) (cwd : DirPath) : NavState :=
  { current_path := cwd, selected_file := 0, search_str := [],
    path_history := [(cwd, ⟨listing cwd, 0⟩)],
    files := listing cwd, original_files := listing cwd }

def demoRoot : DirPath := ["r".data]

def demoSub : DirPath := ["r".data, "sub".data]

def demoDirs : List DirPath := [demoRoot, demoSub]

/-- Listing provider before the external change. -/
def demoListing1 (p : DirPath) : List Str :=
  if p = demoSub then ["../".data, "a".data, "b".data, "c".data, "d".data]
  else if p = demoRoot then ["../".data, "sub/".data]
  else ["../".data]

/-- Listing provider after the external change: a new entry `a0` appears in
`sub`, shifting `c` from index 3 to index 4. -/
def demoListing2 (p : DirPath) : List Str :=
  if p = demoSub then
    ["../".data, "a0".data, "a".data, "b".data, "c".data, "d".data]
  else if p = demoRoot then ["../".data, "sub/".data]
  else ["../".data]

theorem histLookup_histSet_ne (p q : DirPath) (e : HistEntry) (hist : Hist)
    (h : q ≠ p) : histLookup (histSet p e hist) q = histLookup hist q := by
  induction hist with
  | nil =>
      show List.lookup q [(p, e)] = List.lookup q []
      simp [List.lookup, show (q == p) = false by simpa using h]
  | cons pr t ih =>
      obtain ⟨r, f⟩ := pr
      show List.lookup q (if r = p then (r, e) :: t else (r, f) :: histSet p e t) = _
      by_cases hr : r = p
      · subst hr
        rw [if_pos rfl]
        show List.lookup q ((r, e) :: t) = List.lookup q ((r, f) :: t)
        simp [List.lookup, show (q == r) = false by simpa using h]
      · rw [if_neg hr]
        show List.lookup q ((r, f) :: histSet p e t) = List.lookup q ((r, f) :: t)
        by_cases hq : q = r
        · simp [List.lookup, hq]
        · simp only [List.lookup, show (q == r) = false by simpa using hq]
          exact ih

/-- `save_selection` only rewrites the CURRENT directory's history entry;
every other directory's entry is untouched. -/
theorem histLookup_save (st : NavState) (p : DirPath) (h : p ≠ st.current_path) :
    histLookup (save_selection st) p = histLookup st.path_history p := by
  unfold save_selection
  rcases histLookup st.path_history st.current_path with _ | entry
  · rfl
  · dsimp only
    by_cases h1 : st.files ≠ [] ∧ 0 ≤ st.selected_file ∧
        st.selected_file < (st.files.length : Int)
    · rw [if_pos h1]
      by_cases h2 : st.files.getD st.selected_file.toNat [] ∈ entry.original_files
      · rw [if_pos h2]
        exact histLookup_histSet_ne st.current_path p _ _ h
      · rw [if_neg h2]
    · rw [if_neg h1]

/-- C8 counterexample, on the claim's own round trip: enter `sub/`, move
the selection to `c` (index 3), go up, let `sub`'s listing gain a new entry
`a0` (so `c` is now at index 4 and still exists), then re-enter `sub/`.
The claim says the selection is restored to `c` by name lookup in the
current listing; the code instead resets a re-entered subdirectory's
selection to 0 (file_explorer.py:632) — the final selection is `../`, not
`c`. -/
theorem C8_counterexample :
    (nav_step demoDirs demoListing2 20 .enter
      (nav_run demoDirs demoListing1 20 [.down, .enter, .down, .down, .down, .backspace]
        (nav_init demoListing1 demoRoot))).current_path = demoSub ∧
    (nav_step demoDirs demoListing2 20 .enter
      (nav_run demoDirs demoListing1 20 [.down, .enter, .down, .down, .down, .backspace]
        (nav_init demoListing1 demoRoot))).selected_file = 0 ∧
    (demoListing2 demoSub).indexOf "c".data = 4 ∧
    (nav_step demoDirs demoListing2 20 .enter
      (nav_run demoDirs demoListing1 20 [.down, .enter, .down, .down, .down, .backspace]
        (nav_init demoListing1 demoRoot))).files.getD 0 [] = "../".data := by
  refine ⟨by decide, by decide, by decide, by decide⟩

/-- C8 amended: the selection is restored only when navigating UP to a
parent (backspace with an empty filter), and then from the INDEX saved when
the parent was left (the selected name is resolved by filename into the
unfiltered snapshot at SAVE time, not re-resolved at restore time);
re-entering a subdirectory by selecting its name always resets the
selection to 0.  Conjuncts: (i)-(ii) going up moves to the parent and
restores its saved `selected_index`; (iii) entering a non-`"../"`
directory entry selects index 0; (iv)-(vi) the concrete round trip with an
unchanged listing: going up restores the parent's selection to `sub/`
(index 1), and re-entering still resets to 0. -/
theorem C8_amended_navigation (dirs : List DirPath) (listing : DirPath → List Str)
    (rows : Int) (st st' : NavState) (e : HistEntry)
    (hs : st.search_str = [])
    (hp : st.current_path.dropLast ≠ st.current_path)
    (hl : histLookup st.path_history st.current_path.dropLast = some e)
    (hfe : st'.files ≠ [])
    (hname : st'.files.getD st'.selected_file.toNat [] ≠ "../".data)
    (hdir : joinNorm st'.current_path (st'.files.getD st'.selected_file.toNat []) ∈ dirs) :
    (nav_step dirs listing rows .backspace st).current_path = st.current_path.dropLast ∧
    (nav_step dirs listing rows .backspace st).selected_file = e.selected_index ∧
    (nav_step dirs listing rows .enter st').selected_file = 0 ∧
    (nav_run demoDirs demoListing1 20 [.down, .enter, .down, .down, .down, .backspace]
      (nav_init demoListing1 demoRoot)).selected_file = 1 ∧
    (nav_run demoDirs demoListing1 20 [.down, .enter, .down, .down, .down, .backspace]
      (nav_init demoListing1 demoRoot)).files.getD 1 [] = "sub/".data ∧
    (nav_step demoDirs demoListing1 20 .enter
      (nav_run demoDirs demoListing1 20 [.down, .enter, .down, .down, .down, .backspace]
        (nav_init demoListing1 demoRoot))).selected_file = 0 := by
  refine ⟨?_, ?_, ?_, by decide, by decide, by decide⟩
  · unfold nav_step
    dsimp only
    rw [hs]
    rw [if_neg (by simp : ¬(([] : Str) ≠ []))]
  · unfold nav_step
    dsimp only
    rw [hs]
    rw [if_neg (by simp : ¬(([] : Str) ≠ []))]
    dsimp only
    rw [histLookup_save st st.current_path.dropLast hp, hl]
  · unfold nav_step
    dsimp only
    rw [if_pos hfe, if_pos hdir, if_neg hname]

/-- Witness for C8 amended, at the states reached in the demo round trip:
going up from `sub` restores the parent's saved selection (index 1, the
`sub/` entry), and re-entering `sub/` resets the selection to 0. -/
theorem C8_amended_navigation_witness :
    (nav_run demoDirs demoListing1 20 [.down, .enter, .down, .down, .down]
      (nav_init demoListing1 demoRoot)).search_str = [] ∧
    (nav_step demoDirs demoListing1 20 .backspace
      (nav_run demoDirs demoListing1 20 [.down, .enter, .down, .down, .down]
        (nav_init demoListing1 demoRoot))).selected_file = 1 ∧
    (nav_step demoDirs demoListing1 20 .enter
      (nav_run demoDirs demoListing1 20 [.down, .enter, .down, .down, .down, .backspace]
        (nav_init demoListing1 demoRoot))).selected_file = 0 :=
  ⟨by decide,
   (C8_amended_navigation demoDirs demoListing1 20
      (nav_run demoDirs demoListing1 20 [.down, .enter, .down, .down, .down]
        (nav_init demoListing1 demoRoot))
      (nav_run demoDirs demoListing1 20 [.down, .enter, .down, .down, .down, .backspace]
        (nav_init demoListing1 demoRoot))
      ⟨["../".data, "sub/".data], 1⟩
      (by decide) (by decide) (by rfl) (by decide) (by decide) (by decide)).2.1,
   (C8_amended_navigation demoDirs demoListing1 20
      (nav_run demoDirs demoListing1 20 [.down, .enter, .down, .down, .down]
        (nav_init demoListing1 demoRoot))
      (nav_run demoDirs demoListing1 20 [.down, .enter, .down, .down, .down, .backspace]
        (nav_init demoListing1 demoRoot))
      ⟨["../".data, "sub/".data], 1⟩
      (by decide) (by decide) (by rfl) (by decide) (by decide) (by decide)).2.2.1⟩
